import Mathlib

/-!
Verification development for the WebSocket relay in `src/server.js`.

The relay pairs one inbound ("client") WebSocket with one outbound
("upstream") WebSocket per accepted connection and forwards frames in both
directions.  The per-connection state (the `Session` structure below) and
every transition function are shallow embeddings of the corresponding
JavaScript in `src/server.js`; line references are given on each
definition.  Time is modelled as a `Nat` millisecond clock passed to each
event handler (the JS reads `Date.now()`); WebSocket `bufferedAmount` is an
observable of the underlying socket that the program only ever reads, so it
is carried as environment-controlled state (`upBuf`, `clBuf`).  Payloads
are byte lists; `isBinary` is the ws frame-type flag.
-/

namespace Relay

/-- `src/server.js` lines 17–46: the configuration constants. -/
def UPSTREAM_OPEN_TIMEOUT_MS : Nat := 15000

def IDLE_TIMEOUT_MS : Nat := 10 * 60 * 1000

def PING_INTERVAL_MS : Nat := 12000

def UPSTREAM_NOOP_IF_IDLE_MS : Nat := 8000

def PAUSE_AT : Nat := 16 * 1024 * 1024

def RESUME_AT : Nat := 4 * 1024 * 1024

def KILL_AT : Nat := 64 * 1024 * 1024

def MAX_QUEUE_BYTES : Nat := 32 * 1024 * 1024

def EARLY_CLOSE_RETRY_WINDOW_MS : Nat := 45000

/-- `setInterval(idle check, 10000)` at line 237–242: idle-watchdog poll period. -/
def IDLE_POLL_MS : Nat := 10000

/-- `setInterval(applyBackpressure, 50)` at line 278: governor tick period. -/
def BP_INTERVAL_MS : Nat := 50

/-- `setInterval(noop, 1000)` at line 290–303: noop-timer poll period. -/
def NOOP_POLL_MS : Nat := 1000

/-- `setTimeout(terminate both, 250)` at line 224–227: grace period before
force-terminate. -/
def GRACE_MS : Nat := 250

/-- The ws `readyState` values. -/
inductive ReadyState where
  | CONNECTING
  | OPEN
  | CLOSING
  | CLOSED
  deriving DecidableEq, Repr

/-- One WebSocket application message: payload bytes plus the ws
`isBinary` frame-type flag. -/
structure Frame where
  data : List Nat
  isBinary : Bool
  deriving DecidableEq, Repr

/-- One entry of the pre-open queue, `{ data, isBinary, size }` as pushed at
line 396. -/
structure QMsg where
  data : List Nat
  isBinary : Bool
  size : Nat
  deriving DecidableEq, Repr

/-- The per-connection state of `wss.on('connection')` (lines 162–423).
`upSent`/`clSent` record, in order, every frame passed to
`upstream.send`/`client.send` (the observable output of the relay).
`closeInfo` records the `(code, reason)` of the first `safeClose`.
The five timer flags model whether each timer created at lines 230–303 is
still armed; `terminateScheduled` models the 250 ms terminate `setTimeout`
of line 224. -/
structure Session where
  closed : Bool
  closeInfo : Option (Nat × String)
  lastActivity : Nat
  queue : List QMsg
  queueBytes : Nat
  msgsToUp : Nat
  msgsToClient : Nat
  upstreamOpenedAt : Nat
  retryUsed : Bool
  pausedClientReads : Bool
  pausedUpstreamReads : Bool
  upstreamExists : Bool
  clientState : ReadyState
  upstreamState : ReadyState
  upBuf : Nat
  clBuf : Nat
  upSent : List Frame
  clSent : List Frame
  openT : Bool
  idleT : Bool
  bpT : Bool
  pingT : Bool
  noopT : Bool
  terminateScheduled : Bool
  deriving DecidableEq, Repr

/-- `touch()` (lines 200–202): refresh the activity timestamp. -/
def touch (now : Nat) (s : Session) : Session :=
  { s with lastActivity := now }

/-- The effect of `ws.close(code, reason)` on a channel's `readyState`:
a CONNECTING or OPEN socket moves to CLOSING; close on a CLOSING or CLOSED
socket is a no-op. -/
def closeChannel : ReadyState → ReadyState
  | .CONNECTING => .CLOSING
  | .OPEN => .CLOSING
  | .CLOSING => .CLOSING
  | .CLOSED => .CLOSED

/-- `safeClose(code, reason)` (lines 212–228): idempotent teardown.  If the
`closed` flag is already set it returns immediately; otherwise it sets the
flag, clears all five timers (`cleanupTimers`, lines 204–210), closes both
channels with the given code and reason, and schedules the 250 ms
force-terminate. -/
def safeClose (code : Nat) (reason : String) (s : Session) : Session :=
  if s.closed then s
  else
    { s with
      closed := true
      closeInfo := some (code, reason)
      openT := false, idleT := false, bpT := false, pingT := false, noopT := false
      clientState := closeChannel s.clientState
      upstreamState :=
        if s.upstreamExists then closeChannel s.upstreamState else s.upstreamState
      terminateScheduled := true }

/-- Lines 257–265 of `applyBackpressure`: the client→upstream direction —
pause client reads when the upstream buffer exceeds `PAUSE_AT`, resume them
only once it has fallen below `RESUME_AT`. -/
def bpClientStep (s : Session) : Session :=
  if ¬ s.pausedClientReads ∧ s.upBuf > PAUSE_AT then
    { s with pausedClientReads := true }
  else if s.pausedClientReads ∧ s.upBuf < RESUME_AT then
    { s with pausedClientReads := false }
  else s

/-- Lines 267–275 of `applyBackpressure`: the upstream→client direction —
pause upstream reads when the client buffer exceeds `PAUSE_AT`, resume them
only once it has fallen below `RESUME_AT`. -/
def bpUpstreamStep (s : Session) : Session :=
  if ¬ s.pausedUpstreamReads ∧ s.clBuf > PAUSE_AT then
    { s with pausedUpstreamReads := true }
  else if s.pausedUpstreamReads ∧ s.clBuf < RESUME_AT then
    { s with pausedUpstreamReads := false }
  else s

/-- `applyBackpressure()` (lines 244–276): the governor body.  Returns
unchanged unless both channels are OPEN; kills the session at `KILL_AT`
before making any pause/resume decision; otherwise applies the per-direction
hysteresis blocks in source order. -/
def applyBackpressure (s : Session) : Session :=
  if ¬ s.upstreamExists then s
  else if ¬ (s.clientState = .OPEN ∧ s.upstreamState = .OPEN) then s
  else if s.upBuf > KILL_AT ∨ s.clBuf > KILL_AT then
    safeClose 1013 "buffer overflow" s
  else bpUpstreamStep (bpClientStep s)

/-- The `while (queue.length && upstream.readyState === WebSocket.OPEN)`
flush loop of lines 335–339, with the remaining queue passed explicitly
(the caller passes `s.queue`).  Each iteration shifts one entry, subtracts
its size from `queueBytes` and sends it upstream; the loop stops as soon as
the upstream channel is not OPEN. -/
def flushGo : List QMsg → Session → Session
  | [], s => s
  | m :: rest, s =>
    if s.upstreamState = .OPEN then
      flushGo rest
        { s with
          queue := rest
          queueBytes := s.queueBytes - m.size
          upSent := s.upSent ++ [⟨m.data, m.isBinary⟩] }
    else s

/-- `upstream.on('open')` (lines 321–340): fires only when the handshake
completes (i.e. while the socket is CONNECTING — ws suppresses `open` after
`close()`); clears the open-deadline timer, stamps `upstreamOpenedAt`,
resets the message counters and flushes the pre-open queue. -/
def handleUpstreamOpen (now : Nat) (s : Session) : Session :=
  if s.upstreamState = .CONNECTING then
    let s :=
      { s with
        upstreamState := ReadyState.OPEN
        openT := false
        upstreamOpenedAt := now
        msgsToUp := 0
        msgsToClient := 0 }
    flushGo s.queue s
  else s

/-- `upstream.on('message')` (lines 342–350): touch, count, forward to the
client iff the client is OPEN, then run the governor once. -/
def handleUpstreamMessage (now : Nat) (f : Frame) (s : Session) : Session :=
  let s := { touch now s with msgsToClient := s.msgsToClient + 1 }
  let s :=
    if s.clientState = .OPEN then { s with clSent := s.clSent ++ [f] } else s
  applyBackpressure s

/-- `client.on('message')` (lines 384–410): touch, count, then: forward
upstream if the upstream channel is OPEN; enqueue (and check the queue
ceiling) if it is CONNECTING; otherwise tear down with 1011. -/
def handleClientMessage (now : Nat) (f : Frame) (s : Session) : Session :=
  let s := { touch now s with msgsToUp := s.msgsToUp + 1 }
  if s.upstreamExists ∧ s.upstreamState = .OPEN then
    applyBackpressure { s with upSent := s.upSent ++ [f] }
  else if s.upstreamExists ∧ s.upstreamState = .CONNECTING then
    let size := f.data.length
    let s :=
      { s with
        queue := s.queue ++ [⟨f.data, f.isBinary, size⟩]
        queueBytes := s.queueBytes + size }
    if s.queueBytes > MAX_QUEUE_BYTES then safeClose 1009 "queue overflow" s
    else applyBackpressure s
  else safeClose 1011 "upstream not available" s

/-- `lifeMs` of lines 352–353: `Date.now() - (upstreamOpenedAt || Date.now())`
— zero when the upstream never opened. -/
def lifeMs (now : Nat) (s : Session) : Nat :=
  if s.upstreamOpenedAt = 0 then 0 else now - s.upstreamOpenedAt

/-- `upstream.on('close')` (lines 352–373): retry once (silently — terminate
the old socket and `makeUpstream()` a fresh CONNECTING one) if the session
has not begun teardown, the retry is unused and the upstream lived less than
`EARLY_CLOSE_RETRY_WINDOW_MS`; otherwise tear down carrying the upstream's
close code (`code || 1000`). -/
def handleUpstreamClose (now : Nat) (code : Nat) (s : Session) : Session :=
  if ¬ s.closed ∧ ¬ s.retryUsed ∧ lifeMs now s < EARLY_CLOSE_RETRY_WINDOW_MS then
    { s with
      retryUsed := true
      upstreamExists := true
      upstreamState := ReadyState.CONNECTING }
  else safeClose (if code = 0 then 1000 else code) "upstream closed" s

/-- `client.on('close')` (lines 412–415). -/
def handleClientClose (code : Nat) (s : Session) : Session :=
  safeClose (if code = 0 then 1000 else code) "client closed" s

/-- `client.on('error')` (lines 417–420). -/
def handleClientError (s : Session) : Session :=
  safeClose 1011 "client error" s

/-- The `openTimer` body (lines 230–235): a one-shot; when it fires it is
disarmed, and if the upstream has not reached OPEN the session is torn down
with 1013. -/
def handleOpenTimeout (s : Session) : Session :=
  let s := { s with openT := false }
  if ¬ s.upstreamExists ∨ ¬ (s.upstreamState = .OPEN) then
    safeClose 1013 "upstream open timeout" s
  else s

/-- The `idleTimer` body (lines 237–242): close with 1001 once
`now - lastActivity` exceeds `IDLE_TIMEOUT_MS`. -/
def handleIdleTick (now : Nat) (s : Session) : Session :=
  if now - s.lastActivity > IDLE_TIMEOUT_MS then
    safeClose 1001 "idle timeout" s
  else s

/-- The `pingTimer` body (lines 280–287): sends protocol-level pings, which
carry no application data and change none of the modelled state. -/
def handlePingTick (s : Session) : Session := s

/-- The `noopTimer` body (lines 290–303): when the noop feature is enabled,
the upstream is OPEN and the session has been idle for at least
`UPSTREAM_NOOP_IF_IDLE_MS`, send a 1-byte binary frame (`Buffer.from([0x00])`)
upstream and `touch()`. -/
def handleNoopTick (now : Nat) (s : Session) : Session :=
  if UPSTREAM_NOOP_IF_IDLE_MS = 0 then s
  else if ¬ s.upstreamExists ∨ ¬ (s.upstreamState = .OPEN) then s
  else if now - s.lastActivity < UPSTREAM_NOOP_IF_IDLE_MS then s
  else touch now { s with upSent := s.upSent ++ [⟨[0], true⟩] }

/-- The events a live session can receive: frames from either side, the
upstream lifecycle events, the client lifecycle events, pongs, and the
firing of each of the five timers. -/
inductive Ev where
  | clientMsg (f : Frame)
  | upMsg (f : Frame)
  | upOpen
  | upClose (code : Nat)
  | clientClose (code : Nat)
  | clientError
  | clientPong
  | upPong
  | openTimeout
  | idleTick
  | bpTick
  | pingTick
  | noopTick
  deriving DecidableEq, Repr

/-- Dispatch one timestamped event.  Timer events fire only while the
corresponding timer is armed (a cleared interval or timeout never calls its
handler); upstream events require the upstream object to exist. -/
def stepEv (now : Nat) (e : Ev) (s : Session) : Session :=
  match e with
  | .clientMsg f => handleClientMessage now f s
  | .upMsg f => if s.upstreamExists then handleUpstreamMessage now f s else s
  | .upOpen => if s.upstreamExists then handleUpstreamOpen now s else s
  | .upClose code => if s.upstreamExists then handleUpstreamClose now code s else s
  | .clientClose code => handleClientClose code s
  | .clientError => handleClientError s
  | .clientPong => touch now s
  | .upPong => if s.upstreamExists then touch now s else s
  | .openTimeout => if s.openT then handleOpenTimeout s else s
  | .idleTick => if s.idleT then handleIdleTick now s else s
  | .bpTick => if s.bpT then applyBackpressure s else s
  | .pingTick => if s.pingT then handlePingTick s else s
  | .noopTick => if s.noopT then handleNoopTick now s else s

/-- Run a timestamped event list in order. -/
def runEvs (l : List (Nat × Ev)) (s : Session) : Session :=
  l.foldl (fun s te => stepEv te.1 te.2 s) s

/-- The session state right after the synchronous part of the connection
handler (lines 162–422) finishes: client OPEN, upstream freshly created and
CONNECTING, all five timers armed, empty queue, `lastActivity = Date.now()`
(= `now0`). -/
def initSession (now0 : Nat) : Session :=
  { closed := false
    closeInfo := none
    lastActivity := now0
    queue := []
    queueBytes := 0
    msgsToUp := 0
    msgsToClient := 0
    upstreamOpenedAt := 0
    retryUsed := false
    pausedClientReads := false
    pausedUpstreamReads := false
    upstreamExists := true
    clientState := ReadyState.OPEN
    upstreamState := ReadyState.CONNECTING
    upBuf := 0
    clBuf := 0
    upSent := []
    clSent := []
    openT := true
    idleT := true
    bpT := true
    pingT := true
    noopT := true
    terminateScheduled := false }

end Relay

namespace StaticFiles

/-!
Shallow embedding of the static-file request handler of `src/server.js`
lines 113–131, for the deployment platform's `path` module (POSIX
semantics: `'/'` is the separator, `'\'` is an ordinary character).
Paths are `List Char`; the input of `staticRoute` is the already-decoded
URL path (`decodeURIComponent` failures are answered 400 at lines 116–120,
before this logic runs).  `__dirname` is modelled as a fixed absolute,
already-normalized directory.
-/

/-- The `".."` path segment. -/
def dd : List Char := ['.', '.']

/-- Split a character list on `'/'` (the behaviour of scanning a POSIX path
segment-wise; splitting an empty list yields one empty segment). -/
def splitSlash : List Char → List (List Char)
  | [] => [[]]
  | c :: rest =>
    match splitSlash rest with
    | [] => [[]]
    | s :: ss => if c = '/' then [] :: s :: ss else (c :: s) :: ss

/-- Join segments with `'/'`: the inverse of `splitSlash`. -/
def joinSlash : List (List Char) → List Char
  | [] => []
  | [s] => s
  | s :: ss => s ++ '/' :: joinSlash ss

/-- One step of Node's `normalizeString` segment resolution, acting on the
stack of resolved segments (head = most recent).  Empty and `"."` segments
are dropped; `".."` pops a non-`".."` top, is dropped at the root of an
absolute path, and is kept (pushed) for a relative path that cannot pop;
other segments are pushed. -/
def procSeg (isAbs : Bool) (acc : List (List Char)) (seg : List Char) :
    List (List Char) :=
  if seg = [] ∨ seg = ['.'] then acc
  else if seg = dd then
    match acc with
    | [] => if isAbs then [] else [dd]
    | t :: rest => if t = dd then (if isAbs then acc else dd :: acc) else rest
  else seg :: acc

/-- A POSIX path is absolute iff it begins with a slash. -/
def isAbsolute : List Char → Bool
  | '/' :: _ => true
  | _ => false

/-- A path has a trailing separator iff its last character is a slash. -/
def hasTrail (p : List Char) : Bool := p.getLast? == some '/'

/-- `path.posix.normalize` (what `path.normalize(urlPath)` at line 124 runs
on the Linux deployment): resolve `"."`/`".."` segments and duplicate
slashes, preserve a trailing slash, return `"."` for an empty relative
result and `"/"` for an empty absolute one. -/
def pathNormalize (p : List Char) : List Char :=
  if p = [] then ['.']
  else
    let stack := (splitSlash p).foldl (procSeg (isAbsolute p)) []
    let core := joinSlash stack.reverse
    if core = [] then
      if isAbsolute p then ['/']
      else (if hasTrail p then ['.', '/'] else ['.'])
    else
      let core2 := if hasTrail p then core ++ ['/'] else core
      if isAbsolute p then '/' :: core2 else core2

/-- The `replace(/^(\.\.(\/|\\|$))+/, '')` of line 124: repeatedly strip a
leading `"../"` or `"..\"`, and a bare trailing-position `".."`. -/
def stripDots : List Char → List Char
  | '.' :: '.' :: '/' :: rest => stripDots rest
  | '.' :: '.' :: '\\' :: rest => stripDots rest
  | ['.', '.'] => []
  | cs => cs

/-- `path.posix.join(a, b)`: concatenate the non-empty parts with `'/'` and
normalize; the join of two empty parts is `"."`. -/
def pathJoin (a b : List Char) : List Char :=
  let joined := if a = [] then b else (if b = [] then a else a ++ '/' :: b)
  if joined = [] then ['.'] else pathNormalize joined

/-- `__dirname`, modelled as a fixed absolute, normalized directory. -/
def dirname : List Char := "/srv/app".data

/-- `PUBLIC_DIR = path.join(__dirname, 'public')` (line 11). -/
def PUBLIC_DIR : List Char := pathJoin dirname "public".data

/-- `String.prototype.startsWith`: `strStarts pre s` is true iff `s` begins
with the characters of `pre`. -/
def strStarts : List Char → List Char → Bool
  | [], _ => true
  | _ :: _, [] => false
  | a :: pre, b :: s => a = b && strStarts pre s

/-- Outcome of the file-path portion of the HTTP handler: either a resolved
file path handed to `fs.stat`/`serveFile`, or the 403 rejection. -/
inductive RouteResult where
  | serve (filePath : List Char)
  | forbidden
  deriving DecidableEq, Repr

/-- Lines 122–131 of the HTTP handler, on the decoded URL path: default
document substitution, normalize, strip leading `..` separators, join onto
`PUBLIC_DIR`, and reject with 403 unless the result starts with
`PUBLIC_DIR`. -/
def staticRoute (urlPath : List Char) : RouteResult :=
  let urlPath := if urlPath = [] ∨ urlPath = ['/'] then "/index.html".data else urlPath
  let safePath := stripDots (pathNormalize urlPath)
  let filePath := pathJoin PUBLIC_DIR safePath
  if strStarts PUBLIC_DIR filePath then .serve filePath else .forbidden

/-- Containment predicate: `fp` is the root itself, or the root followed by
`'/'` and a sequence of segments none of which is `"."` or `".."` (and none
empty, except that a final empty segment — a trailing slash — is allowed).
Such a path always denotes a location at or below the root directory. -/
def okSegs : List (List Char) → Bool
  | [] => true
  | [s] => !(s == ['.']) && !(s == dd)
  | s :: ss => !s.isEmpty && !(s == ['.']) && !(s == dd) && okSegs ss

/-- `fp` lies within `root`: see `okSegs`. -/
def withinRoot (root fp : List Char) : Bool :=
  fp == root ||
    (match fp.drop root.length with
     | '/' :: rest => strStarts root fp && okSegs (splitSlash rest)
     | _ => false)

end StaticFiles

namespace Stats

/-!
The process-wide `openClients` counter (`src/server.js` lines 96, 107–111,
162–163, 212–216): incremented once in `wss.on('connection')`, decremented
inside the `closed`-flag-guarded prefix of `safeClose` with
`Math.max(0, openClients - 1)`, and reported verbatim by `/stats`.
Sessions are identified by their accept order; each carries its `closed`
flag. -/

/-- Process state: the counter plus one `closed` flag per accepted session. -/
structure ProcState where
  openClients : Int
  sessions : List Bool
  deriving DecidableEq, Repr

/-- Process-level events: accepting a connection, and the first-teardown
attempt of session `i` (a repeated teardown of the same session is the same
event again, which the guard turns into a no-op). -/
inductive PEv where
  | accept
  | close (i : Nat)
  deriving DecidableEq, Repr

/-- `accept`: line 163 `openClients++` plus a new session with
`closed = false`.  `close i`: lines 212–216 — if the session's `closed` flag
is already set, `safeClose` returns without touching the counter; otherwise
the flag is set and `openClients = Math.max(0, openClients - 1)`. -/
def pstep (st : ProcState) : PEv → ProcState
  | .accept =>
    { openClients := st.openClients + 1, sessions := st.sessions ++ [false] }
  | .close i =>
    if st.sessions.getD i true then st
    else
      { openClients := max 0 (st.openClients - 1)
        sessions := st.sessions.set i true }

/-- Run a list of process events from a state. -/
def runProc (l : List PEv) (st : ProcState) : ProcState := l.foldl pstep st

/-- The process starts with no sessions and `openClients = 0` (line 96). -/
def procInit : ProcState := { openClients := 0, sessions := [] }

/-- The number of accepted sessions that have not yet begun teardown. -/
def liveCount (flags : List Bool) : Nat := (flags.filter (fun b => !b)).length

/-- The value served by the `/stats` endpoint (lines 107–111). -/
def statsValue (st : ProcState) : Int := st.openClients

end Stats

namespace Relay

/-! ### Helper lemmas about `safeClose` and `applyBackpressure` -/

/-- After any `safeClose` the `closed` flag is set (it either was set
already, or the call sets it). -/
theorem safeClose_closed (code : Nat) (reason : String) (s : Session) :
    (safeClose code reason s).closed = true := by
  by_cases h : s.closed = true
  · simp [safeClose, h]
  · simp only [Bool.not_eq_true] at h
    simp [safeClose, h]

/-- `safeClose` on an already-closed session is the identity. -/
theorem safeClose_of_closed (code : Nat) (reason : String) (s : Session)
    (h : s.closed = true) : safeClose code reason s = s := by
  simp [safeClose, h]

/-- A second `safeClose` never undoes or repeats the first. -/
theorem safeClose_safeClose (c1 c2 : Nat) (r1 r2 : String) (s : Session) :
    safeClose c2 r2 (safeClose c1 r1 s) = safeClose c1 r1 s := by
  by_cases h : s.closed = true
  · simp [safeClose, h]
  · simp only [Bool.not_eq_true] at h
    simp [safeClose, h]

/-- `safeClose` leaves the two backpressure flags untouched. -/
theorem safeClose_paused (code : Nat) (reason : String) (s : Session) :
    (safeClose code reason s).pausedClientReads = s.pausedClientReads ∧
    (safeClose code reason s).pausedUpstreamReads = s.pausedUpstreamReads := by
  by_cases h : s.closed = true <;> simp [safeClose, h]

end Relay

namespace Relay

/-- `bpClientStep` either leaves the state alone or only writes the
`pausedClientReads` flag. -/
theorem bpClientStep_shape (s : Session) :
    bpClientStep s = s ∨
    bpClientStep s = { s with pausedClientReads := true } ∨
    bpClientStep s = { s with pausedClientReads := false } := by
  unfold bpClientStep
  split
  · right; left; rfl
  · split
    · right; right; rfl
    · left; rfl

/-- `bpUpstreamStep` either leaves the state alone or only writes the
`pausedUpstreamReads` flag. -/
theorem bpUpstreamStep_shape (s : Session) :
    bpUpstreamStep s = s ∨
    bpUpstreamStep s = { s with pausedUpstreamReads := true } ∨
    bpUpstreamStep s = { s with pausedUpstreamReads := false } := by
  unfold bpUpstreamStep
  split
  · right; left; rfl
  · split
    · right; right; rfl
    · left; rfl

/-- The upstream-direction block never touches the client-direction flag. -/
theorem bpUpstreamStep_pausedClient (s : Session) :
    (bpUpstreamStep s).pausedClientReads = s.pausedClientReads := by
  rcases bpUpstreamStep_shape s with h | h | h <;> rw [h]

/-- The client-direction block never touches the upstream-direction flag. -/
theorem bpClientStep_pausedUpstream (s : Session) :
    (bpClientStep s).pausedUpstreamReads = s.pausedUpstreamReads := by
  rcases bpClientStep_shape s with h | h | h <;> rw [h]

/-- Below the kill threshold, the governor only ever writes the two paused
flags: every other component of the session is unchanged. -/
theorem applyBackpressure_no_kill (s : Session)
    (h : ¬ (s.upBuf > KILL_AT ∨ s.clBuf > KILL_AT)) :
    (applyBackpressure s).upSent = s.upSent ∧
    (applyBackpressure s).clSent = s.clSent ∧
    (applyBackpressure s).closed = s.closed ∧
    (applyBackpressure s).closeInfo = s.closeInfo ∧
    (applyBackpressure s).clientState = s.clientState ∧
    (applyBackpressure s).upstreamState = s.upstreamState ∧
    (applyBackpressure s).upstreamExists = s.upstreamExists ∧
    (applyBackpressure s).upBuf = s.upBuf ∧
    (applyBackpressure s).clBuf = s.clBuf ∧
    (applyBackpressure s).queue = s.queue ∧
    (applyBackpressure s).queueBytes = s.queueBytes ∧
    (applyBackpressure s).lastActivity = s.lastActivity ∧
    (applyBackpressure s).idleT = s.idleT ∧
    (applyBackpressure s).noopT = s.noopT := by
  unfold applyBackpressure
  rw [if_neg h]
  by_cases he : ¬ s.upstreamExists = true
  · rw [if_pos he]; simp
  · rw [if_neg he]
    by_cases hb : ¬ (s.clientState = ReadyState.OPEN ∧ s.upstreamState = ReadyState.OPEN)
    · rw [if_pos hb]; simp
    · rw [if_neg hb]
      rcases bpClientStep_shape s with h1 | h1 | h1 <;>
        rcases bpUpstreamStep_shape (bpClientStep s) with h2 | h2 | h2 <;>
          rw [h2, h1] <;> simp

end Relay

namespace Relay

/-- Folding any further teardown attempts over an already-closed session is
the identity. -/
theorem foldl_safeClose_of_closed (l : List (Nat × String)) :
    ∀ s : Session, s.closed = true →
      l.foldl (fun t cr => safeClose cr.1 cr.2 t) s = s := by
  induction l with
  | nil => intro s _; rfl
  | cons cr rest ih =>
    intro s h
    have h1 : safeClose cr.1 cr.2 s = s := safeClose_of_closed _ _ _ h
    simp only [List.foldl_cons, h1]
    exact ih s h

end Relay

/-- C3: the Session transitions to CLOSED at most once.  `safeClose` on an
already-closed session is the identity; the first `safeClose` sets the flag,
records the code and reason, cancels all five timers, closes both channels
(`client.close`, and `upstream.close` when the upstream object exists) and
schedules the 250 ms force-terminate; a second `safeClose` after a first is
a no-op; and for any number of trigger sources firing in any order, the
whole sequence of teardown attempts equals the first one alone. -/
theorem c3_teardown_idempotent :
    (∀ (code : Nat) (reason : String) (s : Relay.Session), s.closed = true →
       Relay.safeClose code reason s = s) ∧
    (∀ (code : Nat) (reason : String) (s : Relay.Session), s.closed = false →
       (Relay.safeClose code reason s).closed = true ∧
       (Relay.safeClose code reason s).closeInfo = some (code, reason) ∧
       (Relay.safeClose code reason s).openT = false ∧
       (Relay.safeClose code reason s).idleT = false ∧
       (Relay.safeClose code reason s).bpT = false ∧
       (Relay.safeClose code reason s).pingT = false ∧
       (Relay.safeClose code reason s).noopT = false ∧
       (Relay.safeClose code reason s).clientState
         = Relay.closeChannel s.clientState ∧
       (s.upstreamExists = true →
         (Relay.safeClose code reason s).upstreamState
           = Relay.closeChannel s.upstreamState) ∧
       (Relay.safeClose code reason s).terminateScheduled = true) ∧
    (∀ (c1 c2 : Nat) (r1 r2 : String) (s : Relay.Session),
       Relay.safeClose c2 r2 (Relay.safeClose c1 r1 s)
         = Relay.safeClose c1 r1 s) ∧
    (∀ (l : List (Nat × String)) (code : Nat) (reason : String)
       (s : Relay.Session),
       l.foldl (fun t cr => Relay.safeClose cr.1 cr.2 t)
           (Relay.safeClose code reason s)
         = Relay.safeClose code reason s) ∧
    Relay.GRACE_MS = 250 := by
  refine ⟨?_, ?_, ?_, ?_, rfl⟩
  · intro code reason s h
    exact Relay.safeClose_of_closed code reason s h
  · intro code reason s h
    refine ⟨?_, ?_, ?_, ?_, ?_, ?_, ?_, ?_, ?_, ?_⟩ <;>
      first
        | (intro hup; simp [Relay.safeClose, h, hup])
        | simp [Relay.safeClose, h]
  · intro c1 c2 r1 r2 s
    exact Relay.safeClose_safeClose c1 c2 r1 r2 s
  · intro l code reason s
    exact Relay.foldl_safeClose_of_closed l _
      (Relay.safeClose_closed code reason s)

/-- Witness for C3 at concrete inputs: a second teardown of a freshly
accepted session is a no-op, and the first teardown records its code and
reason and closes the upstream channel. -/
theorem c3_teardown_idempotent_witness :
    Relay.safeClose 1011 "client error"
        (Relay.safeClose 1001 "idle timeout" (Relay.initSession 0))
      = Relay.safeClose 1001 "idle timeout" (Relay.initSession 0) ∧
    (Relay.safeClose 1001 "idle timeout" (Relay.initSession 0)).closeInfo
      = some (1001, "idle timeout") ∧
    (Relay.safeClose 1001 "idle timeout" (Relay.initSession 0)).upstreamState
      = Relay.closeChannel (Relay.initSession 0).upstreamState :=
  ⟨c3_teardown_idempotent.2.2.1 1001 1011 "idle timeout" "client error"
      (Relay.initSession 0),
   (c3_teardown_idempotent.2.1 1001 "idle timeout" (Relay.initSession 0)
      (by decide)).2.1,
   (c3_teardown_idempotent.2.1 1001 "idle timeout" (Relay.initSession 0)
      (by decide)).2.2.2.2.2.2.2.2.1 (by decide)⟩

namespace Relay

/-- If the client direction is not paused and the upstream buffer is not
above `PAUSE_AT`, the client-direction block does nothing. -/
theorem bpClientStep_id_of_low (s : Session)
    (hp : s.pausedClientReads = false) (hbuf : ¬ s.upBuf > PAUSE_AT) :
    bpClientStep s = s := by
  unfold bpClientStep
  rw [if_neg (by simp [hp, hbuf]), if_neg (by simp [hp])]

/-- While paused with the upstream buffer still at or above `RESUME_AT`,
the client-direction block keeps the pause in place. -/
theorem bpClientStep_id_of_band (s : Session)
    (hp : s.pausedClientReads = true) (hr : RESUME_AT ≤ s.upBuf) :
    bpClientStep s = s := by
  unfold bpClientStep
  rw [if_neg (by simp [hp]), if_neg (by simp [hp]; omega)]

/-- If the upstream direction is not paused and the client buffer is not
above `PAUSE_AT`, the upstream-direction block does nothing. -/
theorem bpUpstreamStep_id_of_low (s : Session)
    (hp : s.pausedUpstreamReads = false) (hbuf : ¬ s.clBuf > PAUSE_AT) :
    bpUpstreamStep s = s := by
  unfold bpUpstreamStep
  rw [if_neg (by simp [hp, hbuf]), if_neg (by simp [hp])]

/-- While paused with the client buffer still at or above `RESUME_AT`,
the upstream-direction block keeps the pause in place. -/
theorem bpUpstreamStep_id_of_band (s : Session)
    (hp : s.pausedUpstreamReads = true) (hr : RESUME_AT ≤ s.clBuf) :
    bpUpstreamStep s = s := by
  unfold bpUpstreamStep
  rw [if_neg (by simp [hp]), if_neg (by simp [hp]; omega)]

end Relay

/-- C5: governor hysteresis, both directions.  A direction's reads are newly
paused by a governor tick only when the sink's `bufferedAmount` exceeds
`PAUSE_AT` (16 MiB), and a tick executed while a direction is paused with
the sink's buffered bytes between `RESUME_AT` (4 MiB) and `PAUSE_AT` leaves
the pause flag set — no flapping. -/
theorem c5_backpressure_hysteresis :
    Relay.PAUSE_AT = 16 * 1024 * 1024 ∧
    Relay.RESUME_AT = 4 * 1024 * 1024 ∧
    (∀ s : Relay.Session, s.pausedClientReads = false →
       (Relay.applyBackpressure s).pausedClientReads = true →
       s.upBuf > Relay.PAUSE_AT) ∧
    (∀ s : Relay.Session, s.pausedClientReads = true →
       Relay.RESUME_AT ≤ s.upBuf → s.upBuf ≤ Relay.PAUSE_AT →
       (Relay.applyBackpressure s).pausedClientReads = true) ∧
    (∀ s : Relay.Session, s.pausedUpstreamReads = false →
       (Relay.applyBackpressure s).pausedUpstreamReads = true →
       s.clBuf > Relay.PAUSE_AT) ∧
    (∀ s : Relay.Session, s.pausedUpstreamReads = true →
       Relay.RESUME_AT ≤ s.clBuf → s.clBuf ≤ Relay.PAUSE_AT →
       (Relay.applyBackpressure s).pausedUpstreamReads = true) := by
  refine ⟨rfl, rfl, ?_, ?_, ?_, ?_⟩
  · intro s hp hres
    by_cases hbuf : s.upBuf > Relay.PAUSE_AT
    · exact hbuf
    · exfalso
      have hflag : (Relay.applyBackpressure s).pausedClientReads = false := by
        unfold Relay.applyBackpressure
        split
        · exact hp
        · split
          · exact hp
          · split
            · rw [(Relay.safeClose_paused _ _ _).1]; exact hp
            · rw [Relay.bpUpstreamStep_pausedClient,
                Relay.bpClientStep_id_of_low s hp hbuf]
              exact hp
      rw [hres] at hflag
      cases hflag
  · intro s hp h1 h2
    unfold Relay.applyBackpressure
    split
    · exact hp
    · split
      · exact hp
      · split
        · rw [(Relay.safeClose_paused _ _ _).1]; exact hp
        · rw [Relay.bpUpstreamStep_pausedClient,
            Relay.bpClientStep_id_of_band s hp h1]
          exact hp
  · intro s hp hres
    by_cases hbuf : s.clBuf > Relay.PAUSE_AT
    · exact hbuf
    · exfalso
      have hflag : (Relay.applyBackpressure s).pausedUpstreamReads = false := by
        unfold Relay.applyBackpressure
        split
        · exact hp
        · split
          · exact hp
          · split
            · rw [(Relay.safeClose_paused _ _ _).2]; exact hp
            · have hcl : (Relay.bpClientStep s).pausedUpstreamReads = false := by
                rw [Relay.bpClientStep_pausedUpstream]; exact hp
              have hclb : (Relay.bpClientStep s).clBuf = s.clBuf := by
                rcases Relay.bpClientStep_shape s with h | h | h <;> rw [h]
              rw [Relay.bpUpstreamStep_id_of_low _ hcl (by rw [hclb]; exact hbuf)]
              exact hcl
      rw [hres] at hflag
      cases hflag
  · intro s hp h1 h2
    unfold Relay.applyBackpressure
    split
    · exact hp
    · split
      · exact hp
      · split
        · rw [(Relay.safeClose_paused _ _ _).2]; exact hp
        · have hcl : (Relay.bpClientStep s).pausedUpstreamReads = true := by
            rw [Relay.bpClientStep_pausedUpstream]; exact hp
          have hclb : (Relay.bpClientStep s).clBuf = s.clBuf := by
            rcases Relay.bpClientStep_shape s with h | h | h <;> rw [h]
          rw [Relay.bpUpstreamStep_id_of_band _ hcl (by rw [hclb]; exact h1)]
          exact hcl

/-- Witness for C5 at concrete states: a tick at 16 MiB + 1 pauses the
client direction; a paused direction with the sink buffer at exactly
`RESUME_AT` (in the hysteresis band) stays paused, in both directions. -/
theorem c5_backpressure_hysteresis_witness :
    ({ Relay.initSession 0 with
         upstreamState := Relay.ReadyState.OPEN
         upBuf := 16 * 1024 * 1024 + 1 } : Relay.Session).upBuf
        > Relay.PAUSE_AT ∧
    (Relay.applyBackpressure
      { Relay.initSession 0 with
          upstreamState := Relay.ReadyState.OPEN
          pausedClientReads := true
          upBuf := Relay.RESUME_AT }).pausedClientReads = true ∧
    (Relay.applyBackpressure
      { Relay.initSession 0 with
          upstreamState := Relay.ReadyState.OPEN
          pausedUpstreamReads := true
          clBuf := Relay.RESUME_AT }).pausedUpstreamReads = true :=
  ⟨c5_backpressure_hysteresis.2.2.1 _ (by decide) (by decide),
   c5_backpressure_hysteresis.2.2.2.1 _ (by decide) (by decide) (by decide),
   c5_backpressure_hysteresis.2.2.2.2.2 _ (by decide) (by decide) (by decide)⟩

/-- C6: kill threshold.  While both channels are OPEN and either channel's
`bufferedAmount` exceeds `KILL_AT` (64 MiB), the governor body — which the
armed 50 ms `bpTimer` tick runs — aborts the session with close code 1013
and reason "buffer overflow", before making any pause/resume decision
(the paused flags are exactly as they were). -/
theorem c6_kill_threshold :
    Relay.KILL_AT = 64 * 1024 * 1024 ∧
    Relay.BP_INTERVAL_MS = 50 ∧
    (∀ (now : Nat) (s : Relay.Session), s.bpT = true →
       Relay.stepEv now Relay.Ev.bpTick s = Relay.applyBackpressure s) ∧
    (∀ s : Relay.Session, s.closed = false → s.upstreamExists = true →
       s.clientState = Relay.ReadyState.OPEN →
       s.upstreamState = Relay.ReadyState.OPEN →
       s.upBuf > Relay.KILL_AT ∨ s.clBuf > Relay.KILL_AT →
       (Relay.applyBackpressure s).closed = true ∧
       (Relay.applyBackpressure s).closeInfo = some (1013, "buffer overflow") ∧
       (Relay.applyBackpressure s).pausedClientReads = s.pausedClientReads ∧
       (Relay.applyBackpressure s).pausedUpstreamReads
          = s.pausedUpstreamReads) := by
  refine ⟨rfl, rfl, ?_, ?_⟩
  · intro now s h
    simp [Relay.stepEv, h]
  · intro s hclosed hex hcl hup hkill
    unfold Relay.applyBackpressure
    rw [if_neg (by simp [hex]), if_neg (by simp [hcl, hup]), if_pos hkill]
    exact ⟨Relay.safeClose_closed 1013 "buffer overflow" s,
      by simp [Relay.safeClose, hclosed],
      (Relay.safeClose_paused _ _ _).1,
      (Relay.safeClose_paused _ _ _).2⟩

/-- Witness for C6: a session with both channels OPEN and the upstream
buffer one byte above the kill threshold is closed with (1013, "buffer
overflow") by the governor body, paused flags untouched. -/
theorem c6_kill_threshold_witness :
    (Relay.applyBackpressure
      { Relay.initSession 0 with
          upstreamState := Relay.ReadyState.OPEN
          upBuf := 64 * 1024 * 1024 + 1 }).closed = true ∧
    (Relay.applyBackpressure
      { Relay.initSession 0 with
          upstreamState := Relay.ReadyState.OPEN
          upBuf := 64 * 1024 * 1024 + 1 }).closeInfo
      = some (1013, "buffer overflow") :=
  ⟨(c6_kill_threshold.2.2.2 _ (by decide) (by decide) (by decide) (by decide)
      (Or.inl (by decide))).1,
   (c6_kill_threshold.2.2.2 _ (by decide) (by decide) (by decide) (by decide)
      (Or.inl (by decide))).2.1⟩

/-- C8: retry-once on early upstream close.  If the upstream channel closes
before teardown began, the retry is unused and less than
`EARLY_CLOSE_RETRY_WINDOW_MS` (45 s) has passed since it opened, the session
silently replaces the upstream with a fresh CONNECTING channel and marks the
retry used (no teardown, no close code recorded); once the retry has been
used — or when the close falls outside the window — an upstream close tears
the session down carrying the upstream's close code (`code || 1000`). -/
theorem c8_retry_once :
    Relay.EARLY_CLOSE_RETRY_WINDOW_MS = 45000 ∧
    (∀ (now code : Nat) (s : Relay.Session),
       s.closed = false → s.retryUsed = false → s.upstreamOpenedAt ≠ 0 →
       now - s.upstreamOpenedAt < Relay.EARLY_CLOSE_RETRY_WINDOW_MS →
       Relay.handleUpstreamClose now code s
         = { s with
               retryUsed := true
               upstreamExists := true
               upstreamState := Relay.ReadyState.CONNECTING }) ∧
    (∀ (now code : Nat) (s : Relay.Session),
       s.closed = false → s.retryUsed = true →
       (Relay.handleUpstreamClose now code s).closed = true ∧
       (Relay.handleUpstreamClose now code s).closeInfo
         = some (if code = 0 then 1000 else code, "upstream closed")) ∧
    (∀ (now code : Nat) (s : Relay.Session),
       s.closed = false →
       ¬ Relay.lifeMs now s < Relay.EARLY_CLOSE_RETRY_WINDOW_MS →
       (Relay.handleUpstreamClose now code s).closed = true ∧
       (Relay.handleUpstreamClose now code s).closeInfo
         = some (if code = 0 then 1000 else code, "upstream closed")) := by
  refine ⟨rfl, ?_, ?_, ?_⟩
  · intro now code s hclosed hretry hopened hwin
    unfold Relay.handleUpstreamClose
    rw [if_pos]
    refine ⟨by simp [hclosed], by simp [hretry], ?_⟩
    unfold Relay.lifeMs
    rw [if_neg hopened]
    exact hwin
  · intro now code s hclosed hretry
    unfold Relay.handleUpstreamClose
    rw [if_neg (fun h => by simp [hretry] at h)]
    exact ⟨Relay.safeClose_closed _ _ _, by simp [Relay.safeClose, hclosed]⟩
  · intro now code s hclosed hwin
    unfold Relay.handleUpstreamClose
    rw [if_neg (fun h => hwin h.2.2)]
    exact ⟨Relay.safeClose_closed _ _ _, by simp [Relay.safeClose, hclosed]⟩

/-- Witness for C8: an upstream close 20 s after opening retries silently
(fresh CONNECTING upstream, retry marked used, no close recorded); a second
early close after the retry tears down with the upstream's code 1006. -/
theorem c8_retry_once_witness :
    Relay.handleUpstreamClose 20423 1006
        { Relay.initSession 0 with
            upstreamState := Relay.ReadyState.CLOSED
            upstreamOpenedAt := 423 }
      = { Relay.initSession 0 with
            upstreamState := Relay.ReadyState.CONNECTING
            upstreamOpenedAt := 423
            retryUsed := true } ∧
    (Relay.handleUpstreamClose 25000 1006
        { Relay.initSession 0 with
            upstreamState := Relay.ReadyState.CLOSED
            upstreamOpenedAt := 423
            retryUsed := true }).closeInfo
      = some (1006, "upstream closed") :=
  ⟨c8_retry_once.2.1 20423 1006 _ (by decide) (by decide) (by decide)
      (by decide),
   by
    rw [(c8_retry_once.2.2.1 25000 1006 _ (by decide) (by decide)).2]
    decide⟩


namespace Relay

/-- Once the session is closed with the upstream channel CLOSING, no event
whatsoever can send anything further on the upstream channel, and the state
stays closed with the upstream CLOSING. -/
theorem stepEv_frozen (t : Nat) (e : Ev) (s : Session)
    (h1 : s.closed = true) (h2 : s.upstreamState = ReadyState.CLOSING) :
    (stepEv t e s).upSent = s.upSent ∧
    (stepEv t e s).closed = true ∧
    (stepEv t e s).upstreamState = ReadyState.CLOSING := by
  cases e <;>
    simp only [stepEv, handleClientMessage, handleUpstreamMessage,
      handleUpstreamOpen, handleUpstreamClose, handleClientClose,
      handleClientError, handleOpenTimeout, handleIdleTick, handlePingTick,
      handleNoopTick, applyBackpressure, touch, safeClose, lifeMs, h1, h2] <;>
    (repeat' split) <;>
    simp_all

/-- Run form of `stepEv_frozen`: after teardown with the upstream CLOSING,
an arbitrary further event sequence never adds to `upSent`. -/
theorem runEvs_frozen (evs : List (Nat × Ev)) :
    ∀ s : Session, s.closed = true →
      s.upstreamState = ReadyState.CLOSING →
      (runEvs evs s).upSent = s.upSent := by
  induction evs with
  | nil => intro s _ _; rfl
  | cons te rest ih =>
    intro s h1 h2
    obtain ⟨hu, hc, hs⟩ := stepEv_frozen te.1 te.2 s h1 h2
    simp only [runEvs, List.foldl_cons]
    have := ih (stepEv te.1 te.2 s) hc hs
    simp only [runEvs] at this
    rw [this, hu]

end Relay

/-- C4: queue ceiling.  If a client message enqueued while the upstream is
CONNECTING pushes `queueBytes` over `MAX_QUEUE_BYTES` (32 MiB), the session
is torn down with the distinct status (1009, "queue overflow"), nothing was
sent upstream, and no event of any kind — in particular no further client
message — ever sends anything upstream afterwards. -/
theorem c4_queue_overflow :
    Relay.MAX_QUEUE_BYTES = 32 * 1024 * 1024 ∧
    ∀ (now : Nat) (f : Relay.Frame) (s : Relay.Session),
      s.closed = false → s.upstreamExists = true →
      s.upstreamState = Relay.ReadyState.CONNECTING →
      s.queueBytes + f.data.length > Relay.MAX_QUEUE_BYTES →
      (Relay.handleClientMessage now f s).closed = true ∧
      (Relay.handleClientMessage now f s).closeInfo
        = some (1009, "queue overflow") ∧
      (Relay.handleClientMessage now f s).upSent = s.upSent ∧
      ∀ evs : List (Nat × Relay.Ev),
        (Relay.runEvs evs (Relay.handleClientMessage now f s)).upSent
          = s.upSent := by
  refine ⟨rfl, ?_⟩
  intro now f s hclosed hex hconn hover
  have hstep :
      (Relay.handleClientMessage now f s).closed = true ∧
      (Relay.handleClientMessage now f s).closeInfo
        = some (1009, "queue overflow") ∧
      (Relay.handleClientMessage now f s).upSent = s.upSent ∧
      (Relay.handleClientMessage now f s).upstreamState
        = Relay.ReadyState.CLOSING := by
    simp only [Relay.handleClientMessage, Relay.touch, Relay.safeClose,
      hclosed, hex, hconn]
    simp only [gt_iff_lt] at hover ⊢
    simp [Relay.closeChannel, hconn, hover, hex]
  obtain ⟨hc, hi, hu, hs⟩ := hstep
  refine ⟨hc, hi, hu, ?_⟩
  intro evs
  rw [Relay.runEvs_frozen evs _ hc hs, hu]

/-- Witness for C4: with 32 MiB already queued, a 1-byte client message
overflows the ceiling; the session closes with (1009, "queue overflow") and
a later client message sends nothing upstream. -/
theorem c4_queue_overflow_witness :
    (Relay.handleClientMessage 100 ⟨[7], true⟩
        { Relay.initSession 0 with
            queueBytes := 32 * 1024 * 1024 }).closeInfo
      = some (1009, "queue overflow") ∧
    (Relay.runEvs [(200, Relay.Ev.clientMsg ⟨[8], true⟩)]
        (Relay.handleClientMessage 100 ⟨[7], true⟩
          { Relay.initSession 0 with
              queueBytes := 32 * 1024 * 1024 })).upSent = [] :=
  ⟨(c4_queue_overflow.2 100 ⟨[7], true⟩ _ (by decide) (by decide) (by decide)
      (by decide)).2.1,
   (c4_queue_overflow.2 100 ⟨[7], true⟩ _ (by decide) (by decide) (by decide)
      (by decide)).2.2.2 [(200, Relay.Ev.clientMsg ⟨[8], true⟩)]⟩
namespace Relay

def clientFrames (evs : List (Nat × Ev)) : List Frame :=
  evs.filterMap (fun te =>
    match te.2 with
    | .clientMsg f => some f
    | _ => none)

def upstreamFrames (evs : List (Nat × Ev)) : List Frame :=
  evs.filterMap (fun te =>
    match te.2 with
    | .upMsg f => some f
    | _ => none)

def framesBytes (fs : List Frame) : Nat :=
  (fs.map (fun f => f.data.length)).sum

def toQMsg (f : Frame) : QMsg := ⟨f.data, f.isBinary, f.data.length⟩

def toFrame (m : QMsg) : Frame := ⟨m.data, m.isBinary⟩

/-- The events that can occur while the upstream is still CONNECTING and
that neither close the session nor depend on further state: client data
frames, governor/ping/noop timer ticks, and pongs. -/
def isPreOpenEv : Ev → Bool
  | .clientMsg _ => true
  | .bpTick => true
  | .pingTick => true
  | .noopTick => true
  | .clientPong => true
  | .upPong => true
  | _ => false

theorem flushGo_open (q : List QMsg) :
    ∀ s : Session, s.upstreamState = ReadyState.OPEN →
      (flushGo q s).upSent = s.upSent ++ q.map toFrame ∧
      (flushGo q s).queue = (if q = [] then s.queue else []) ∧
      (flushGo q s).upstreamState = ReadyState.OPEN := by
  induction q with
  | nil => intro s h; simp [flushGo, h]
  | cons m rest ih =>
    intro s h
    simp only [flushGo]
    rw [if_pos h]
    obtain ⟨h1, h2, h3⟩ := ih _ (show ({ s with
      queue := rest
      queueBytes := s.queueBytes - m.size
      upSent := s.upSent ++ [⟨m.data, m.isBinary⟩] } : Session).upstreamState
        = ReadyState.OPEN from h)
    refine ⟨?_, ?_, h3⟩
    · rw [h1]; simp [toFrame]
    · rw [h2]
      by_cases hr : rest = [] <;> simp [hr]

end Relay

namespace Relay

theorem runEvs_nil (s : Session) : runEvs [] s = s := rfl

theorem runEvs_cons (t : Nat) (e : Ev) (rest : List (Nat × Ev)) (s : Session) :
    runEvs ((t, e) :: rest) s = runEvs rest (stepEv t e s) := rfl

theorem preopen_run (evs : List (Nat × Ev)) :
    ∀ s : Session, s.upstreamExists = true →
      s.upstreamState = ReadyState.CONNECTING → s.closed = false →
      (∀ te ∈ evs, isPreOpenEv te.2 = true) →
      s.queueBytes + framesBytes (clientFrames evs) ≤ MAX_QUEUE_BYTES →
      (runEvs evs s).upSent = s.upSent ∧
      (runEvs evs s).queue = s.queue ++ (clientFrames evs).map toQMsg ∧
      (runEvs evs s).queueBytes
        = s.queueBytes + framesBytes (clientFrames evs) ∧
      (runEvs evs s).closed = false ∧
      (runEvs evs s).upstreamState = ReadyState.CONNECTING ∧
      (runEvs evs s).upstreamExists = true := by
  induction evs with
  | nil =>
    intro s hex hconn hcl _ _
    simp [runEvs, clientFrames, framesBytes, hcl, hconn, hex]
  | cons te rest ih =>
    intro s hex hconn hcl hpre hbud
    have hpe : isPreOpenEv te.2 = true := hpre te (by simp)
    obtain ⟨t, e⟩ := te
    have hrest : ∀ x ∈ rest, isPreOpenEv x.2 = true :=
      fun x hx => hpre x (by simp [hx])
    rw [runEvs_cons]
    cases e with
    | upMsg f => simp [isPreOpenEv] at hpe
    | upOpen => simp [isPreOpenEv] at hpe
    | upClose code => simp [isPreOpenEv] at hpe
    | clientClose code => simp [isPreOpenEv] at hpe
    | clientError => simp [isPreOpenEv] at hpe
    | openTimeout => simp [isPreOpenEv] at hpe
    | idleTick => simp [isPreOpenEv] at hpe
    | clientMsg f =>
      have hlen : s.queueBytes + f.data.length ≤ MAX_QUEUE_BYTES := by
        simp only [clientFrames, List.filterMap_cons, framesBytes,
          List.map_cons, List.sum_cons] at hbud
        omega
      have hnoov : ¬ s.queueBytes + f.data.length > MAX_QUEUE_BYTES := by omega
      have hstep :
          stepEv t (Ev.clientMsg f) s
            = { s with
                  lastActivity := t
                  msgsToUp := s.msgsToUp + 1
                  queue := s.queue ++ [toQMsg f]
                  queueBytes := s.queueBytes + f.data.length } := by
        simp [stepEv, handleClientMessage, touch, hex, hconn, hnoov,
          applyBackpressure, toQMsg]
      rw [hstep]
      obtain ⟨i1, i2, i3, i4, i5, i6⟩ :=
        ih { s with
               lastActivity := t
               msgsToUp := s.msgsToUp + 1
               queue := s.queue ++ [toQMsg f]
               queueBytes := s.queueBytes + f.data.length }
          (by simp [hex]) (by simp [hconn]) (by simp [hcl]) hrest
          (by
            simp only [clientFrames, List.filterMap_cons, framesBytes,
              List.map_cons, List.sum_cons] at hbud ⊢
            omega)
      refine ⟨by simpa using i1, ?_, ?_, i4, i5, i6⟩
      · rw [i2]
        simp [clientFrames, List.filterMap_cons]
      · rw [i3]
        simp only [clientFrames, List.filterMap_cons, framesBytes,
          List.map_cons, List.sum_cons]
        omega
    | bpTick =>
      have hstep : stepEv t Ev.bpTick s = s := by
        simp [stepEv, applyBackpressure, hconn, hex]
      rw [hstep]
      have := ih s hex hconn hcl hrest (by simpa [clientFrames] using hbud)
      simpa [clientFrames] using this
    | pingTick =>
      have hstep : stepEv t Ev.pingTick s = s := by
        simp [stepEv, handlePingTick]
      rw [hstep]
      have := ih s hex hconn hcl hrest (by simpa [clientFrames] using hbud)
      simpa [clientFrames] using this
    | noopTick =>
      have hstep : stepEv t Ev.noopTick s = s := by
        simp [stepEv, handleNoopTick, hconn, UPSTREAM_NOOP_IF_IDLE_MS]
      rw [hstep]
      have := ih s hex hconn hcl hrest (by simpa [clientFrames] using hbud)
      simpa [clientFrames] using this
    | clientPong =>
      have hstep : stepEv t Ev.clientPong s = touch t s := rfl
      rw [hstep]
      have := ih (touch t s) (by simp [touch, hex]) (by simp [touch, hconn])
        (by simp [touch, hcl]) hrest (by simpa [touch, clientFrames] using hbud)
      simpa [touch, clientFrames] using this
    | upPong =>
      have hstep : stepEv t Ev.upPong s = touch t s := by
        simp [stepEv, hex]
      rw [hstep]
      have := ih (touch t s) (by simp [touch, hex]) (by simp [touch, hconn])
        (by simp [touch, hcl]) hrest (by simpa [touch, clientFrames] using hbud)
      simpa [touch, clientFrames] using this

end Relay

namespace Relay

/-- `upstream.on('open')` on a CONNECTING upstream flushes the entire queue
to the upstream in insertion order and empties it. -/
theorem handleUpstreamOpen_flush (now : Nat) (s : Session)
    (hconn : s.upstreamState = ReadyState.CONNECTING) :
    (handleUpstreamOpen now s).upSent = s.upSent ++ s.queue.map toFrame ∧
    (handleUpstreamOpen now s).queue = [] ∧
    (handleUpstreamOpen now s).upstreamState = ReadyState.OPEN := by
  unfold handleUpstreamOpen
  rw [if_pos hconn]
  obtain ⟨h1, h2, h3⟩ := flushGo_open
    (({ s with
        upstreamState := ReadyState.OPEN
        openT := false
        upstreamOpenedAt := now
        msgsToUp := 0
        msgsToClient := 0 } : Session).queue)
    { s with
        upstreamState := ReadyState.OPEN
        openT := false
        upstreamOpenedAt := now
        msgsToUp := 0
        msgsToClient := 0 } rfl
  refine ⟨by simpa using h1, ?_, h3⟩
  rw [h2]
  by_cases hq : s.queue = [] <;> simp [hq]

end Relay

/-- C2: pre-open buffering.  A flush on a channel that is not OPEN stops
immediately and sends nothing; every client message received while the
upstream is CONNECTING is enqueued in order and nothing is sent upstream;
and the `open` event then flushes the whole queue to the upstream strictly
in insertion order, leaving it empty. -/
theorem c2_preopen_buffering :
    (∀ (q : List Relay.QMsg) (s : Relay.Session),
       ¬ s.upstreamState = Relay.ReadyState.OPEN → Relay.flushGo q s = s) ∧
    (∀ (evs : List (Nat × Relay.Ev)) (s : Relay.Session) (now : Nat),
       s.upstreamExists = true →
       s.upstreamState = Relay.ReadyState.CONNECTING →
       s.closed = false →
       (∀ te ∈ evs, Relay.isPreOpenEv te.2 = true) →
       s.queueBytes + Relay.framesBytes (Relay.clientFrames evs)
         ≤ Relay.MAX_QUEUE_BYTES →
       (Relay.runEvs evs s).upSent = s.upSent ∧
       (Relay.runEvs evs s).queue
         = s.queue ++ (Relay.clientFrames evs).map Relay.toQMsg ∧
       (Relay.handleUpstreamOpen now (Relay.runEvs evs s)).upSent
         = s.upSent ++ (s.queue ++ (Relay.clientFrames evs).map Relay.toQMsg).map
             Relay.toFrame ∧
       (Relay.handleUpstreamOpen now (Relay.runEvs evs s)).queue = []) := by
  constructor
  · intro q s h
    cases q <;> simp [Relay.flushGo, h]
  · intro evs s now hex hconn hcl hpre hbud
    obtain ⟨i1, i2, i3, i4, i5, i6⟩ := Relay.preopen_run evs s hex hconn hcl hpre hbud
    obtain ⟨f1, f2, f3⟩ := Relay.handleUpstreamOpen_flush now (Relay.runEvs evs s) i5
    refine ⟨i1, i2, ?_, f2⟩
    rw [f1, i1, i2]

/-- Witness for C2: three client messages sent while the upstream is
CONNECTING are queued in order with nothing sent upstream, and the `open`
event delivers exactly those three, in order. -/
theorem c2_preopen_buffering_witness :
    (Relay.runEvs
        [(10, Relay.Ev.clientMsg ⟨[1], true⟩),
         (20, Relay.Ev.clientMsg ⟨[2, 3], true⟩),
         (30, Relay.Ev.clientMsg ⟨[4], false⟩)]
        (Relay.initSession 0)).upSent = [] ∧
    (Relay.handleUpstreamOpen 100
        (Relay.runEvs
          [(10, Relay.Ev.clientMsg ⟨[1], true⟩),
           (20, Relay.Ev.clientMsg ⟨[2, 3], true⟩),
           (30, Relay.Ev.clientMsg ⟨[4], false⟩)]
          (Relay.initSession 0))).upSent
      = [⟨[1], true⟩, ⟨[2, 3], true⟩, ⟨[4], false⟩] ∧
    (Relay.handleUpstreamOpen 100
        (Relay.runEvs
          [(10, Relay.Ev.clientMsg ⟨[1], true⟩),
           (20, Relay.Ev.clientMsg ⟨[2, 3], true⟩),
           (30, Relay.Ev.clientMsg ⟨[4], false⟩)]
          (Relay.initSession 0))).queue = [] := by
  obtain ⟨i1, i2, i3, i4⟩ := c2_preopen_buffering.2
    [(10, Relay.Ev.clientMsg ⟨[1], true⟩),
     (20, Relay.Ev.clientMsg ⟨[2, 3], true⟩),
     (30, Relay.Ev.clientMsg ⟨[4], false⟩)]
    (Relay.initSession 0) 100 (by decide) (by decide) (by decide)
    (by decide) (by decide)
  exact ⟨i1, by rw [i3]; decide, i4⟩
namespace Relay

/-- The events that can occur while both channels are OPEN and that the
amended frame-fidelity statement ranges over: data frames in both
directions, governor and ping ticks, and pongs — everything except close
and error events and the upstream-bound idle-noop injection. -/
def isBenignEv : Ev → Bool
  | .clientMsg _ => true
  | .upMsg _ => true
  | .bpTick => true
  | .pingTick => true
  | .clientPong => true
  | .upPong => true
  | _ => false

/-- The frame a benign event sends upstream, if any. -/
def evUpFrame : Ev → List Frame
  | .clientMsg f => [f]
  | _ => []

/-- The frame a benign event sends to the client, if any. -/
def evClFrame : Ev → List Frame
  | .upMsg f => [f]
  | _ => []

theorem benign_step (t : Nat) (e : Ev) (s : Session)
    (hb : isBenignEv e = true)
    (hex : s.upstreamExists = true) (hcl : s.clientState = ReadyState.OPEN)
    (hup : s.upstreamState = ReadyState.OPEN)
    (hu : s.upBuf ≤ KILL_AT) (hc : s.clBuf ≤ KILL_AT) :
    (stepEv t e s).upSent = s.upSent ++ evUpFrame e ∧
    (stepEv t e s).clSent = s.clSent ++ evClFrame e ∧
    (stepEv t e s).upstreamExists = true ∧
    (stepEv t e s).clientState = ReadyState.OPEN ∧
    (stepEv t e s).upstreamState = ReadyState.OPEN ∧
    (stepEv t e s).upBuf ≤ KILL_AT ∧
    (stepEv t e s).clBuf ≤ KILL_AT := by
  have hnk : ∀ x : Session, x.upBuf = s.upBuf → x.clBuf = s.clBuf →
      ¬ (x.upBuf > KILL_AT ∨ x.clBuf > KILL_AT) := by
    intro x h1 h2
    rw [h1, h2]
    omega
  cases e with
  | clientMsg f =>
    obtain ⟨a1, a2, a3, a4, a5, a6, a7, a8, a9, a10, a11, a12, a13, a14⟩ :=
      applyBackpressure_no_kill
        { s with
            lastActivity := t
            msgsToUp := s.msgsToUp + 1
            upSent := s.upSent ++ [f] }
        (hnk _ rfl rfl)
    simp only [stepEv, handleClientMessage, touch]
    rw [if_pos (by simp [hex, hup])]
    refine ⟨by simpa [evUpFrame] using a1, by simpa [evClFrame] using a2,
      by simpa [hex] using a7, by simpa [hcl] using a5,
      by simpa [hup] using a6, (le_of_eq a8).trans (by simpa using hu),
      (le_of_eq a9).trans (by simpa using hc)⟩
  | upMsg f =>
    obtain ⟨a1, a2, a3, a4, a5, a6, a7, a8, a9, a10, a11, a12, a13, a14⟩ :=
      applyBackpressure_no_kill
        { s with
            lastActivity := t
            msgsToClient := s.msgsToClient + 1
            clSent := s.clSent ++ [f] }
        (hnk _ rfl rfl)
    simp only [stepEv, handleUpstreamMessage, touch]
    rw [if_pos hex, if_pos (by simpa using hcl)]
    refine ⟨by simpa [evUpFrame] using a1, by simpa [evClFrame] using a2,
      by simpa [hex] using a7, by simpa [hcl] using a5,
      by simpa [hup] using a6, (le_of_eq a8).trans (by simpa using hu),
      (le_of_eq a9).trans (by simpa using hc)⟩
  | bpTick =>
    by_cases hbp : s.bpT = true
    · obtain ⟨a1, a2, a3, a4, a5, a6, a7, a8, a9, a10, a11, a12, a13, a14⟩ :=
        applyBackpressure_no_kill s (hnk _ rfl rfl)
      simp only [stepEv]
      rw [if_pos hbp]
      refine ⟨by simpa [evUpFrame] using a1, by simpa [evClFrame] using a2,
        by simpa [hex] using a7, by simpa [hcl] using a5,
        by simpa [hup] using a6, (le_of_eq a8).trans hu,
        (le_of_eq a9).trans hc⟩
    · simp only [stepEv]
      rw [if_neg hbp]
      exact ⟨by simp [evUpFrame], by simp [evClFrame], hex, hcl, hup, hu, hc⟩
  | pingTick =>
    have hstep : stepEv t Ev.pingTick s = s := by
      simp [stepEv, handlePingTick]
    rw [hstep]
    exact ⟨by simp [evUpFrame], by simp [evClFrame], hex, hcl, hup, hu, hc⟩
  | clientPong =>
    exact ⟨by simp [stepEv, touch, evUpFrame], by simp [stepEv, touch, evClFrame],
      by simpa [stepEv, touch] using hex, by simpa [stepEv, touch] using hcl,
      by simpa [stepEv, touch] using hup, by simpa [stepEv, touch] using hu,
      by simpa [stepEv, touch] using hc⟩
  | upPong =>
    have hstep : stepEv t Ev.upPong s = touch t s := by
      simp [stepEv, hex]
    rw [hstep]
    exact ⟨by simp [touch, evUpFrame], by simp [touch, evClFrame],
      by simpa [touch] using hex, by simpa [touch] using hcl,
      by simpa [touch] using hup, by simpa [touch] using hu,
      by simpa [touch] using hc⟩
  | upOpen => simp [isBenignEv] at hb
  | upClose code => simp [isBenignEv] at hb
  | clientClose code => simp [isBenignEv] at hb
  | clientError => simp [isBenignEv] at hb
  | openTimeout => simp [isBenignEv] at hb
  | idleTick => simp [isBenignEv] at hb
  | noopTick => simp [isBenignEv] at hb

end Relay

namespace Relay

theorem clientFrames_cons (t : Nat) (e : Ev) (rest : List (Nat × Ev)) :
    clientFrames ((t, e) :: rest) = evUpFrame e ++ clientFrames rest := by
  cases e <;> simp [clientFrames, evUpFrame]

theorem upstreamFrames_cons (t : Nat) (e : Ev) (rest : List (Nat × Ev)) :
    upstreamFrames ((t, e) :: rest) = evClFrame e ++ upstreamFrames rest := by
  cases e <;> simp [upstreamFrames, evClFrame]

end Relay

/-- C1 (amended): frame forwarding fidelity over benign events.  For any
event sequence made of data frames, governor/ping ticks and pongs — i.e.
excluding the idle-noop injection — processed while both channels are OPEN
with buffers at most the kill threshold, the relay appends to the upstream
channel exactly the client's frames, in order, with identical bytes and
`isBinary` flags, and to the client channel exactly the upstream's frames,
in order, with identical bytes and flags. -/
theorem c1_forwarding_fidelity :
    ∀ (evs : List (Nat × Relay.Ev)) (s : Relay.Session),
      (∀ te ∈ evs, Relay.isBenignEv te.2 = true) →
      s.upstreamExists = true → s.clientState = Relay.ReadyState.OPEN →
      s.upstreamState = Relay.ReadyState.OPEN →
      s.upBuf ≤ Relay.KILL_AT → s.clBuf ≤ Relay.KILL_AT →
      (Relay.runEvs evs s).upSent = s.upSent ++ Relay.clientFrames evs ∧
      (Relay.runEvs evs s).clSent = s.clSent ++ Relay.upstreamFrames evs := by
  intro evs
  induction evs with
  | nil =>
    intro s _ _ _ _ _ _
    simp [Relay.runEvs_nil, Relay.clientFrames, Relay.upstreamFrames]
  | cons te rest ih =>
    intro s hpre hex hcl hup hu hc
    obtain ⟨t, e⟩ := te
    obtain ⟨b1, b2, b3, b4, b5, b6, b7⟩ :=
      Relay.benign_step t e s (hpre (t, e) (by simp)) hex hcl hup hu hc
    rw [Relay.runEvs_cons]
    obtain ⟨i1, i2⟩ := ih (Relay.stepEv t e s)
      (fun x hx => hpre x (by simp [hx])) b3 b4 b5 b6 b7
    constructor
    · rw [i1, b1, Relay.clientFrames_cons, List.append_assoc]
    · rw [i2, b2, Relay.upstreamFrames_cons, List.append_assoc]

namespace Relay

/-- A concrete schedule on which the claimed exact-sequence property fails:
the upstream opens, the client sends one frame, the session then sits idle
past the 8 s noop threshold, the armed noop timer fires at its 10 s tick
(also an idle-watchdog poll instant), and the client sends a second frame. -/
def c1CexEvs : List (Nat × Ev) :=
  [(500, Ev.upOpen),
   (600, Ev.clientMsg ⟨[222, 173], true⟩),
   (10000, Ev.idleTick),
   (10000, Ev.noopTick),
   (10050, Ev.clientMsg ⟨[112, 105], false⟩)]

end Relay

/-- C1 counterexample: on `c1CexEvs` the client sends exactly the two frames
`[222,173]` (binary) and `[112,105]` (text), each processed while both
channels are OPEN, yet the upstream receives three frames — the idle-noop
timer (lines 290–303) injects an extra 1-byte binary frame between them —
so upstream does not receive exactly the client's sequence. -/
theorem c1_noop_breaks_exact_sequence :
    Relay.clientFrames Relay.c1CexEvs
      = [⟨[222, 173], true⟩, ⟨[112, 105], false⟩] ∧
    (Relay.runEvs (Relay.c1CexEvs.take 1)
        (Relay.initSession 0)).clientState = Relay.ReadyState.OPEN ∧
    (Relay.runEvs (Relay.c1CexEvs.take 1)
        (Relay.initSession 0)).upstreamState = Relay.ReadyState.OPEN ∧
    (Relay.runEvs (Relay.c1CexEvs.take 4)
        (Relay.initSession 0)).clientState = Relay.ReadyState.OPEN ∧
    (Relay.runEvs (Relay.c1CexEvs.take 4)
        (Relay.initSession 0)).upstreamState = Relay.ReadyState.OPEN ∧
    (Relay.runEvs Relay.c1CexEvs (Relay.initSession 0)).upSent
      = [⟨[222, 173], true⟩, ⟨[0], true⟩, ⟨[112, 105], false⟩] ∧
    (Relay.runEvs Relay.c1CexEvs (Relay.initSession 0)).upSent
      ≠ Relay.clientFrames Relay.c1CexEvs := by
  refine ⟨by decide, by decide, by decide, by decide, by decide, by decide,
    by decide⟩

namespace Relay

/-- A session with both channels OPEN, as right after the upstream `open`
event on a fresh session. -/
def c1WitS : Session :=
  { initSession 0 with upstreamState := ReadyState.OPEN }

end Relay

/-- Witness for the amended C1 at a concrete run: one client frame and one
upstream frame, forwarded verbatim in both directions. -/
theorem c1_forwarding_fidelity_witness :
    (Relay.runEvs
        [(5, Relay.Ev.clientMsg ⟨[1], true⟩), (6, Relay.Ev.upMsg ⟨[2], false⟩)]
        Relay.c1WitS).upSent = [⟨[1], true⟩] ∧
    (Relay.runEvs
        [(5, Relay.Ev.clientMsg ⟨[1], true⟩), (6, Relay.Ev.upMsg ⟨[2], false⟩)]
        Relay.c1WitS).clSent = [⟨[2], false⟩] :=
  letI h := c1_forwarding_fidelity
    [(5, Relay.Ev.clientMsg ⟨[1], true⟩), (6, Relay.Ev.upMsg ⟨[2], false⟩)]
    Relay.c1WitS (by decide) (by decide) (by decide) (by decide) (by decide)
    (by decide)
  ⟨h.1.trans (by decide), h.2.trans (by decide)⟩
namespace Relay

/-- Events with application traffic or pongs — exactly what `touch` treats
as activity besides the noop sender itself. -/
def isTrafficEv : Ev → Bool
  | .clientMsg _ => true
  | .upMsg _ => true
  | .clientPong => true
  | .upPong => true
  | _ => false

/-- A governor tick leaves any state with empty buffers and clear pause
flags completely unchanged. -/
theorem bpTick_id_of_quiet (t : Nat) (s : Session)
    (h1 : s.upBuf = 0) (h2 : s.clBuf = 0)
    (h3 : s.pausedClientReads = false) (h4 : s.pausedUpstreamReads = false) :
    stepEv t Ev.bpTick s = s := by
  have hid : applyBackpressure s = s := by
    unfold applyBackpressure bpUpstreamStep bpClientStep
    simp [h1, h2, h3, h4, PAUSE_AT, RESUME_AT, KILL_AT]
  simp [stepEv, hid]

theorem runEvs_append (a b : List (Nat × Ev)) (s : Session) :
    runEvs (a ++ b) s = runEvs b (runEvs a s) := by
  simp [runEvs, List.foldl_append]

/-- The timer schedule of an otherwise silent session between seconds `a`
(exclusive) and `b` (inclusive): per second, in timer-creation order, the
idle-watchdog poll every 10 s, the keepalive ping every 12 s, and the noop
poll every second.  (The 50 ms governor ticks are omitted: by
`bpTick_id_of_quiet` each of them is the identity on this run, whose
buffers stay 0 and whose pause flags stay false.) -/
def c7Seg (a b : Nat) : List (Nat × Ev) :=
  (List.range (b - a)).flatMap (fun i =>
    (if (a + i + 1) % 10 = 0 then [((a + i + 1) * 1000, Ev.idleTick)] else []) ++
    (if (a + i + 1) % 12 = 0 then [((a + i + 1) * 1000, Ev.pingTick)] else []) ++
    [((a + i + 1) * 1000, Ev.noopTick)])

/-- The full 610-second silent schedule: upstream opens at 423 ms, then
only timer events up to t = 610 s — past the 600 s idle ceiling plus one
10 s poll interval. -/
def c7Evs : List (Nat × Ev) :=
  (423, Ev.upOpen) :: (c7Seg 0 200 ++ (c7Seg 200 400 ++ c7Seg 400 610))

/-- The session state of the silent run at second `T`: upstream OPEN since
423 ms, activity refreshed by the noop sender at every multiple of 8 s, and
one injected noop frame per 8 s. -/
def c7Mid (T : Nat) : Session :=
  { initSession 0 with
      upstreamState := ReadyState.OPEN
      openT := false
      upstreamOpenedAt := 423
      lastActivity := 8000 * (T * 1000 / 8000)
      upSent := List.replicate (T * 1000 / 8000) ⟨[0], true⟩ }

set_option maxRecDepth 10000

theorem c7open : stepEv 423 Ev.upOpen (initSession 0) = c7Mid 0 := by decide

theorem c7seg1 : runEvs (c7Seg 0 200) (c7Mid 0) = c7Mid 200 := by decide

theorem c7seg2 : runEvs (c7Seg 200 400) (c7Mid 200) = c7Mid 400 := by decide

theorem c7seg3 : runEvs (c7Seg 400 610) (c7Mid 400) = c7Mid 610 := by decide

theorem c7quiet : c7Evs.all (fun te => !isTrafficEv te.2) = true := by decide

end Relay

set_option maxRecDepth 10000

/-- C7 counterexample: on the concrete 610 s schedule `c7Evs` — no
forwarded data frame and no received pong at all, upstream OPEN from 423 ms
— the idle watchdog never fires: the 1 s noop timer sends an idle noop and
refreshes `lastActivity` every 8 s (lines 290–303), so `now - lastActivity`
never exceeds the 600 000 ms ceiling, and 610 s (past the ceiling plus one
10 s poll) the session is still not closed, contradicting the claim that it
is closed within one poll interval after the ceiling elapses. -/
theorem c7_noop_defeats_idle_watchdog :
    Relay.c7Evs.all (fun te => !Relay.isTrafficEv te.2) = true ∧
    610 * 1000 ≥ Relay.IDLE_TIMEOUT_MS + Relay.IDLE_POLL_MS ∧
    (610 * 1000, Relay.Ev.idleTick) ∈ Relay.c7Evs ∧
    (Relay.runEvs Relay.c7Evs (Relay.initSession 0)).closed = false ∧
    (Relay.runEvs Relay.c7Evs (Relay.initSession 0)).closeInfo = none ∧
    (Relay.runEvs Relay.c7Evs (Relay.initSession 0)).lastActivity = 608000 := by
  have hrun :
      Relay.runEvs Relay.c7Evs (Relay.initSession 0) = Relay.c7Mid 610 := by
    show Relay.runEvs ((423, Relay.Ev.upOpen) ::
      (Relay.c7Seg 0 200 ++ (Relay.c7Seg 200 400 ++ Relay.c7Seg 400 610)))
        (Relay.initSession 0) = Relay.c7Mid 610
    rw [Relay.runEvs_cons, Relay.c7open, Relay.runEvs_append,
      Relay.runEvs_append, Relay.c7seg1, Relay.c7seg2, Relay.c7seg3]
  refine ⟨Relay.c7quiet, by decide, by decide, ?_, ?_, ?_⟩ <;> rw [hrun] <;> decide

/-- C7 (amended): the idle watchdog.  An armed idle-watchdog poll at a
moment when `now - lastActivity` exceeds `IDLE_TIMEOUT_MS` closes the
session with (1001, "idle timeout") — the poll period is 10 s, so with no
activity the session closes within one poll interval after the ceiling —
provided the upstream channel is not OPEN, for otherwise the 1 s noop
timer itself refreshes `lastActivity` (at least every 9 s) and the ceiling
is never exceeded; when the upstream is not OPEN the noop tick provably
changes nothing. -/
theorem c7_idle_watchdog_amended :
    Relay.IDLE_TIMEOUT_MS = 600000 ∧
    Relay.IDLE_POLL_MS = 10000 ∧
    (∀ (now : Nat) (s : Relay.Session), s.idleT = true → s.closed = false →
       Relay.IDLE_TIMEOUT_MS < now - s.lastActivity →
       (Relay.stepEv now Relay.Ev.idleTick s).closed = true ∧
       (Relay.stepEv now Relay.Ev.idleTick s).closeInfo
         = some (1001, "idle timeout")) ∧
    (∀ (now : Nat) (s : Relay.Session),
       ¬ s.upstreamState = Relay.ReadyState.OPEN →
       Relay.stepEv now Relay.Ev.noopTick s = s) := by
  refine ⟨rfl, rfl, ?_, ?_⟩
  · intro now s hidle hclosed hgap
    have hcond : now - s.lastActivity > Relay.IDLE_TIMEOUT_MS := hgap
    constructor
    · simp [Relay.stepEv, Relay.handleIdleTick, hidle, hcond,
        Relay.safeClose_closed]
    · simp [Relay.stepEv, Relay.handleIdleTick, hidle, hcond,
        Relay.safeClose, hclosed]
  · intro now s hup
    have hnoop : Relay.handleNoopTick now s = s := by
      unfold Relay.handleNoopTick
      rw [if_neg (by simp [Relay.UPSTREAM_NOOP_IF_IDLE_MS]),
        if_pos (Or.inr hup)]
    simp [Relay.stepEv, hnoop]

/-- Witness for the amended C7: a fresh session (upstream CONNECTING) with
no activity for 600 001 ms is closed by the idle poll with
(1001, "idle timeout"), and a noop tick on it changes nothing. -/
theorem c7_idle_watchdog_amended_witness :
    (Relay.stepEv 600001 Relay.Ev.idleTick (Relay.initSession 0)).closeInfo
      = some (1001, "idle timeout") ∧
    Relay.stepEv 600001 Relay.Ev.noopTick (Relay.initSession 0)
      = Relay.initSession 0 :=
  ⟨(c7_idle_watchdog_amended.2.2.1 600001 (Relay.initSession 0) (by decide)
      (by decide) (by decide)).2,
   c7_idle_watchdog_amended.2.2.2 600001 (Relay.initSession 0) (by decide)⟩
namespace Stats

theorem liveCount_append_false (l : List Bool) :
    liveCount (l ++ [false]) = liveCount l + 1 := by
  simp [liveCount]

theorem liveCount_set_true (l : List Bool) :
    ∀ i : Nat, l.getD i true = false →
      liveCount l = liveCount (l.set i true) + 1 := by
  induction l with
  | nil => intro i h; simp [List.getD] at h
  | cons b t ih =>
    intro i h
    cases i with
    | zero =>
      simp only [List.getD_cons_zero] at h
      subst h
      simp [liveCount, List.set]
    | succ j =>
      have := ih j (by simpa using h)
      cases b <;> simp [liveCount, List.set] at this ⊢ <;> omega

/-- One process event preserves the counter invariant. -/
theorem pstep_inv (st : ProcState) (e : PEv)
    (h : st.openClients = (liveCount st.sessions : Int)) :
    (pstep st e).openClients = (liveCount (pstep st e).sessions : Int) := by
  cases e with
  | accept =>
    simp [pstep, liveCount_append_false, h]
  | close i =>
    by_cases hc : st.sessions.getD i true = true
    · simp only [pstep]
      rw [if_pos hc]
      exact h
    · simp only [Bool.not_eq_true] at hc
      have hl := liveCount_set_true st.sessions i hc
      simp only [pstep]
      rw [if_neg (by simpa [List.getD] using hc)]
      show max 0 (st.openClients - 1) = (liveCount (st.sessions.set i true) : Int)
      rw [h, hl]
      push_cast
      omega

theorem runProc_cons (e : PEv) (rest : List PEv) (st : ProcState) :
    runProc (e :: rest) st = runProc rest (pstep st e) := rfl

theorem runProc_inv (evs : List PEv) :
    ∀ st : ProcState, st.openClients = (liveCount st.sessions : Int) →
      (runProc evs st).openClients
        = (liveCount (runProc evs st).sessions : Int) := by
  induction evs with
  | nil => intro st h; exact h
  | cons e rest ih =>
    intro st h
    rw [runProc_cons]
    exact ih (pstep st e) (pstep_inv st e h)

end Stats

/-- C10: the process-wide `openClients` counter.  Starting from the empty
process, after any interleaving of session accepts and (possibly repeated)
per-session teardown attempts, `openClients` equals the number of accepted
sessions that have not yet begun teardown, it is never negative, and the
`/stats` endpoint reports exactly this value. -/
theorem c10_openClients_counter :
    ∀ evs : List Stats.PEv,
      (Stats.runProc evs Stats.procInit).openClients
        = (Stats.liveCount (Stats.runProc evs Stats.procInit).sessions : Int) ∧
      0 ≤ (Stats.runProc evs Stats.procInit).openClients ∧
      Stats.statsValue (Stats.runProc evs Stats.procInit)
        = (Stats.liveCount (Stats.runProc evs Stats.procInit).sessions : Int) := by
  intro evs
  have h := Stats.runProc_inv evs Stats.procInit (by simp [Stats.procInit, Stats.liveCount])
  exact ⟨h, h ▸ Int.natCast_nonneg _, h⟩
namespace StaticFiles

/-- `splitSlash` always yields at least one segment. -/
theorem splitSlash_exists (cs : List Char) :
    ∃ s ss, splitSlash cs = s :: ss := by
  cases cs with
  | nil => exact ⟨[], [], rfl⟩
  | cons c rest =>
    simp only [splitSlash]
    rcases h : splitSlash rest with _ | ⟨s, ss⟩
    · exact ⟨[], [], rfl⟩
    · by_cases hc : c = '/'
      · exact ⟨[], s :: ss, by simp [hc]⟩
      · exact ⟨c :: s, ss, by simp [hc]⟩

/-- Unfolding equation for `splitSlash` on a cons cell. -/
theorem splitSlash_cons (c : Char) (rest : List Char) (s : List Char)
    (ss : List (List Char)) (h : splitSlash rest = s :: ss) :
    splitSlash (c :: rest)
      = if c = '/' then [] :: s :: ss else (c :: s) :: ss := by
  simp only [splitSlash, h]

/-- Joining the split segments restores the path. -/
theorem joinSlash_splitSlash (cs : List Char) :
    joinSlash (splitSlash cs) = cs := by
  induction cs with
  | nil => rfl
  | cons c rest ih =>
    obtain ⟨s, ss, h⟩ := splitSlash_exists rest
    rw [splitSlash_cons c rest s ss h]
    rw [h] at ih
    by_cases hc : c = '/'
    · rw [if_pos hc, hc]
      cases ss <;> simpa [joinSlash] using ih
    · rw [if_neg hc]
      cases ss <;> simpa [joinSlash] using ih

/-- No segment produced by `splitSlash` contains a slash. -/
theorem splitSlash_slashfree (cs : List Char) :
    ∀ seg ∈ splitSlash cs, '/' ∉ seg := by
  induction cs with
  | nil =>
    intro seg hseg
    simp [splitSlash] at hseg
    simp [hseg]
  | cons c rest ih =>
    intro seg hseg
    obtain ⟨s, ss, h⟩ := splitSlash_exists rest
    rw [splitSlash_cons c rest s ss h] at hseg
    rw [h] at ih
    by_cases hc : c = '/'
    · rw [if_pos hc] at hseg
      rcases List.mem_cons.1 hseg with rfl | hm
      · simp
      · exact ih seg hm
    · rw [if_neg hc] at hseg
      rcases List.mem_cons.1 hseg with rfl | hm
      · intro hmem
        rcases List.mem_cons.1 hmem with heq | hmem2
        · exact hc heq.symm
        · exact ih s (by simp) hmem2
      · exact ih seg (by simp [hm])

end StaticFiles
namespace StaticFiles

/-- Splitting a path around an explicit separator splits each side. -/
theorem splitSlash_append (a b : List Char) :
    splitSlash (a ++ '/' :: b) = splitSlash a ++ splitSlash b := by
  induction a with
  | nil =>
    obtain ⟨s, ss, h⟩ := splitSlash_exists b
    rw [List.nil_append, splitSlash_cons '/' b s ss h, if_pos rfl, h]
    rfl
  | cons c a ih =>
    obtain ⟨s, ss, h⟩ := splitSlash_exists (a ++ '/' :: b)
    obtain ⟨s2, ss2, h2⟩ := splitSlash_exists a
    rw [List.cons_append, splitSlash_cons c _ s ss h,
      splitSlash_cons c a s2 ss2 h2]
    rw [h2, h] at ih
    by_cases hc : c = '/'
    · rw [if_pos hc, if_pos hc, ih]
      rfl
    · rw [if_neg hc, if_neg hc]
      injection ih with ih1 ih2
      rw [ih1, ih2]
      rfl

/-- A path whose characters contain no slash splits into one segment. -/
theorem splitSlash_slashfree_single (cs : List Char) (h : '/' ∉ cs) :
    splitSlash cs = [cs] := by
  induction cs with
  | nil => rfl
  | cons c rest ih =>
    have hc : ¬ c = '/' := fun hcc => h (by simp [hcc])
    have hrest : '/' ∉ rest := fun hm => h (by simp [hm])
    rw [splitSlash_cons c rest rest []
      (by rw [ih hrest]), if_neg hc]

/-- Joining nonempty segment lists around an append. -/
theorem joinSlash_append (A B : List (List Char)) (hA : A ≠ []) (hB : B ≠ []) :
    joinSlash (A ++ B) = joinSlash A ++ '/' :: joinSlash B := by
  induction A with
  | nil => exact absurd rfl hA
  | cons x A ih =>
    cases A with
    | nil =>
      cases B with
      | nil => exact absurd rfl hB
      | cons y B => simp [joinSlash]
    | cons x2 A2 =>
      have ihh := ih (by simp)
      calc joinSlash ((x :: x2 :: A2) ++ B)
          = x ++ '/' :: joinSlash ((x2 :: A2) ++ B) := rfl
        _ = x ++ '/' :: (joinSlash (x2 :: A2) ++ '/' :: joinSlash B) := by
              rw [ihh]
        _ = joinSlash (x :: x2 :: A2) ++ '/' :: joinSlash B := by
              simp [joinSlash]

/-- Splitting the join of nonempty, slash-free segments is the identity. -/
theorem splitSlash_joinSlash (l : List (List Char)) (hne : l ≠ [])
    (hsf : ∀ x ∈ l, '/' ∉ x) : splitSlash (joinSlash l) = l := by
  induction l with
  | nil => exact absurd rfl hne
  | cons x l ih =>
    cases l with
    | nil => exact splitSlash_slashfree_single x (hsf x (by simp))
    | cons y t =>
      have hx : '/' ∉ x := hsf x (by simp)
      have hrest : ∀ z ∈ y :: t, '/' ∉ z := fun z hz => hsf z (by simp [hz])
      have hj : joinSlash (x :: y :: t) = x ++ '/' :: joinSlash (y :: t) := by
        simp [joinSlash]
      rw [hj, splitSlash_append, splitSlash_slashfree_single x hx,
        ih (by simp) hrest]
      rfl

/-- A trailing slash appended to a joined nonempty segment list is the same
as joining with an extra empty segment. -/
theorem joinSlash_trailing (l : List (List Char)) (hne : l ≠ []) :
    joinSlash l ++ ['/'] = joinSlash (l ++ [[]]) := by
  rw [joinSlash_append l [[]] hne (by simp)]
  rfl

end StaticFiles

namespace StaticFiles

/-- `stripDots` on input not matching any of its patterns is the identity. -/
theorem stripDots_fix (cs : List Char)
    (h1 : ∀ rest, cs ≠ '.' :: '.' :: '/' :: rest)
    (h2 : ∀ rest, cs ≠ '.' :: '.' :: '\\' :: rest)
    (h3 : cs ≠ ['.', '.']) :
    stripDots cs = cs := by
  unfold stripDots
  split
  next rest => exact absurd rfl (h1 rest)
  next rest => exact absurd rfl (h2 rest)
  next => exact absurd rfl h3
  next => rfl

/-- The result of `stripDots` is a character suffix of its input. -/
theorem stripDots_suffix (cs : List Char) : stripDots cs <:+ cs := by
  induction cs using stripDots.induct with
  | case1 rest ih =>
    unfold stripDots
    exact ih.trans ⟨['.', '.', '/'], rfl⟩
  | case2 rest ih =>
    unfold stripDots
    exact ih.trans ⟨['.', '.', '\\'], rfl⟩
  | case3 =>
    unfold stripDots
    exact ⟨['.', '.'], by simp⟩
  | case4 cs h1 h2 h3 =>
    rw [stripDots_fix cs (fun r h => h1 r h) (fun r h => h2 r h) h3]

/-- The result of `stripDots` no longer begins with a strippable `..`. -/
theorem stripDots_head (cs : List Char) :
    (∀ rest, stripDots cs ≠ '.' :: '.' :: '/' :: rest) ∧
    (∀ rest, stripDots cs ≠ '.' :: '.' :: '\\' :: rest) ∧
    stripDots cs ≠ ['.', '.'] := by
  induction cs using stripDots.induct with
  | case1 rest ih => exact ih
  | case2 rest ih => exact ih
  | case3 =>
    refine ⟨fun r h => ?_, fun r h => ?_, fun h => ?_⟩ <;> simp [stripDots] at h
  | case4 cs h1 h2 h3 =>
    rw [stripDots_fix cs (fun r h => h1 r h) (fun r h => h2 r h) h3]
    exact ⟨fun r h => h1 r h, fun r h => h2 r h, h3⟩

end StaticFiles
namespace StaticFiles

/-- Prepending characters to a path only changes its first segment: the
later segments of the original are a suffix of the later segments of the
extended path. -/
theorem splitSlash_tail_suffix (t : List Char) :
    ∀ cs : List Char,
      (splitSlash cs).tail <:+ (splitSlash (t ++ cs)).tail := by
  induction t with
  | nil => intro cs; simp
  | cons c t ih =>
    intro cs
    obtain ⟨s, ss, h⟩ := splitSlash_exists (t ++ cs)
    have ihx : (splitSlash cs).tail <:+ ss := by
      have := ih cs
      rw [h] at this
      exact this
    rw [List.cons_append, splitSlash_cons c (t ++ cs) s ss h]
    by_cases hc : c = '/'
    · rw [if_pos hc]
      exact ihx.trans ⟨[s], rfl⟩
    · rw [if_neg hc]
      exact ihx

/-- No `".."` segment anywhere in the path. -/
def NoDotDotSeg (cs : List Char) : Prop :=
  ∀ seg ∈ splitSlash cs, seg ≠ dd

/-- The first segment of a `stripDots` result is never `".."`. -/
theorem stripDots_first_ne_dd (cs s : List Char) (ss : List (List Char))
    (h : splitSlash (stripDots cs) = s :: ss) : s ≠ dd := by
  intro hs
  subst hs
  have hj := joinSlash_splitSlash (stripDots cs)
  rw [h] at hj
  obtain ⟨hh1, hh2, hh3⟩ := stripDots_head cs
  cases ss with
  | nil => exact hh3 hj.symm
  | cons y t =>
    have : joinSlash (dd :: y :: t) = '.' :: '.' :: '/' :: joinSlash (y :: t) := by
      simp [joinSlash, dd]
    rw [this] at hj
    exact hh1 (joinSlash (y :: t)) hj.symm

/-- Stripping the leading `".."` run of a joined `".."`-prefixed segment
list gives the strip of the rest. -/
theorem stripDots_replicate (k : Nat) :
    ∀ names : List (List Char),
      stripDots (joinSlash (List.replicate k dd ++ names))
        = stripDots (joinSlash names) := by
  induction k with
  | zero => intro names; rfl
  | succ k ih =>
    intro names
    rcases hL : List.replicate k dd ++ names with _ | ⟨z, L⟩
    · obtain ⟨hk, hn⟩ := List.append_eq_nil.1 hL
      have hk0 : k = 0 := by
        cases k with
        | zero => rfl
        | succ j => simp [List.replicate] at hk
      subst hk0
      subst hn
      decide
    · have hstep : List.replicate (k + 1) dd ++ names = dd :: z :: L := by
        rw [List.replicate_succ, List.cons_append, hL]
      rw [hstep]
      have hjoin : joinSlash (dd :: z :: L)
          = '.' :: '.' :: '/' :: joinSlash (z :: L) := by
        simp [joinSlash, dd]
      rw [hjoin]
      show stripDots (joinSlash (z :: L)) = stripDots (joinSlash names)
      rw [← hL, ih]

/-- The strip of a joined path whose segments are a `".."` run followed by
slash-free non-`".."` segments has no `".."` segment at all. -/
theorem stripDots_no_dd (k : Nat) (names : List (List Char))
    (hsf : ∀ x ∈ names, '/' ∉ x) (hnd : ∀ x ∈ names, x ≠ dd) :
    NoDotDotSeg (stripDots (joinSlash (List.replicate k dd ++ names))) := by
  rw [stripDots_replicate k names]
  cases names with
  | nil =>
    intro seg hseg
    simp [joinSlash, stripDots, splitSlash] at hseg
    simp [hseg, dd]
  | cons n ns =>
    intro seg hseg
    obtain ⟨s, ss, hsplit⟩ := splitSlash_exists (stripDots (joinSlash (n :: ns)))
    rw [hsplit] at hseg
    rcases List.mem_cons.1 hseg with rfl | hmem
    · exact stripDots_first_ne_dd _ _ _ hsplit
    · -- seg is in the tail: a suffix of the original tail segments
      obtain ⟨t, ht⟩ := stripDots_suffix (joinSlash (n :: ns))
      have htail := splitSlash_tail_suffix t (stripDots (joinSlash (n :: ns)))
      rw [ht, splitSlash_joinSlash (n :: ns) (by simp) hsf] at htail
      rw [hsplit] at htail
      have : seg ∈ ns := htail.subset hmem
      exact hnd seg (by simp [this])

end StaticFiles
namespace StaticFiles

/-- A resolved segment: nonempty, not `"."`, not `".."`, slash-free. -/
def GoodSeg (x : List Char) : Prop :=
  x ≠ [] ∧ x ≠ ['.'] ∧ x ≠ dd ∧ '/' ∉ x

/-- One absolute-mode resolution step preserves segment goodness of the stack. -/
theorem procSeg_true_inv (acc : List (List Char)) (seg : List Char)
    (hacc : ∀ x ∈ acc, GoodSeg x) (hsf : '/' ∉ seg) :
    ∀ x ∈ procSeg true acc seg, GoodSeg x := by
  unfold procSeg
  split
  · exact hacc
  · split
    · cases acc with
      | nil => simp
      | cons t r =>
        by_cases ht : t = dd
        · intro x hx
          have hx' : x ∈ t :: r := by simpa [ht] using hx
          exact hacc x hx'
        · intro x hx
          have hx' : x ∈ r := by simpa [ht] using hx
          exact hacc x (by simp [hx'])
    · intro x hx
      rcases List.mem_cons.1 hx with rfl | hmem
      · next h1 h2 =>
          exact ⟨fun hh => h1 (Or.inl hh), fun hh => h1 (Or.inr hh), h2, hsf⟩
      · exact hacc x hmem

/-- In absolute mode the resolved stack only ever holds good segments. -/
theorem foldl_procSeg_abs (segs : List (List Char)) :
    ∀ acc, (∀ x ∈ acc, GoodSeg x) → (∀ x ∈ segs, '/' ∉ x) →
      ∀ x ∈ segs.foldl (procSeg true) acc, GoodSeg x := by
  induction segs with
  | nil => intro acc hacc _; exact hacc
  | cons seg rest ih =>
    intro acc hacc hsf
    rw [List.foldl_cons]
    exact ih (procSeg true acc seg)
      (procSeg_true_inv acc seg hacc (hsf seg (by simp)))
      (fun x hx => hsf x (by simp [hx]))

/-- In relative mode the stack is always good segments atop a `".."` run. -/
theorem foldl_procSeg_rel (segs : List (List Char)) :
    ∀ (ns : List (List Char)) (k : Nat), (∀ x ∈ ns, GoodSeg x) →
      (∀ x ∈ segs, '/' ∉ x) →
      ∃ (ns' : List (List Char)) (k' : Nat),
        segs.foldl (procSeg false) (ns ++ List.replicate k dd)
          = ns' ++ List.replicate k' dd ∧ ∀ x ∈ ns', GoodSeg x := by
  induction segs with
  | nil => intro ns k hns _; exact ⟨ns, k, rfl, hns⟩
  | cons seg rest ih =>
    intro ns k hns hsf
    rw [List.foldl_cons]
    have hsfr : ∀ x ∈ rest, '/' ∉ x := fun x hx => hsf x (by simp [hx])
    have hstep :
        ∃ (ns2 : List (List Char)) (k2 : Nat),
          procSeg false (ns ++ List.replicate k dd) seg
            = ns2 ++ List.replicate k2 dd ∧ ∀ x ∈ ns2, GoodSeg x := by
      unfold procSeg
      split
      · exact ⟨ns, k, rfl, hns⟩
      · split
        · cases ns with
          | nil =>
            cases k with
            | zero => exact ⟨[], 1, rfl, by simp⟩
            | succ j =>
              refine ⟨[], j + 2, ?_, by simp⟩
              simp [List.replicate_succ]
          | cons n ns' =>
            have hn : n ≠ dd := (hns n (by simp)).2.2.1
            refine ⟨ns', k, ?_, fun x hx => hns x (by simp [hx])⟩
            simp [hn]
        · next h1 h2 =>
            exact ⟨seg :: ns, k, rfl,
              fun x hx => by
                rcases List.mem_cons.1 hx with rfl | hmem
                · exact ⟨fun hh => h1 (Or.inl hh), fun hh => h1 (Or.inr hh),
                    h2, hsf _ (by simp)⟩
                · exact hns x hmem⟩
    obtain ⟨ns2, k2, heq, hg2⟩ := hstep
    rw [heq]
    exact ih ns2 k2 hg2 hsfr

end StaticFiles
namespace StaticFiles

/-- Reversing preserves segment goodness membership-wise. -/
theorem goodseg_reverse (l : List (List Char)) (h : ∀ x ∈ l, GoodSeg x) :
    ∀ x ∈ l.reverse, GoodSeg x := by
  intro x hx
  exact h x (List.mem_reverse.1 hx)

/-- The normalized-then-stripped `safePath` of line 124 never contains a
`".."` segment, for any request path whatsoever. -/
theorem safePath_no_dd (p : List Char) :
    NoDotDotSeg (stripDots (pathNormalize p)) := by
  by_cases hp0 : p = []
  · subst hp0
    unfold NoDotDotSeg
    decide
  · have hnorm : pathNormalize p =
        (if joinSlash ((splitSlash p).foldl (procSeg (isAbsolute p)) []).reverse
            = [] then
          if isAbsolute p then ['/']
          else (if hasTrail p then ['.', '/'] else ['.'])
        else
          if isAbsolute p then
            '/' :: (if hasTrail p then
              joinSlash ((splitSlash p).foldl (procSeg (isAbsolute p)) []).reverse
                ++ ['/']
              else
              joinSlash ((splitSlash p).foldl (procSeg (isAbsolute p)) []).reverse)
          else
            (if hasTrail p then
              joinSlash ((splitSlash p).foldl (procSeg (isAbsolute p)) []).reverse
                ++ ['/']
              else
              joinSlash ((splitSlash p).foldl (procSeg (isAbsolute p)) []).reverse)) := by
      unfold pathNormalize
      rw [if_neg hp0]
    by_cases hcore :
        joinSlash ((splitSlash p).foldl (procSeg (isAbsolute p)) []).reverse = []
    · rw [hnorm, if_pos hcore]
      by_cases habs : isAbsolute p = true
      · rw [if_pos habs]
        intro seg hseg
        simp [splitSlash] at hseg
        rcases hseg with rfl | rfl
        all_goals simp [dd]
      · rw [if_neg habs]
        by_cases htr : hasTrail p = true
        · rw [if_pos htr]
          intro seg hseg
          rw [stripDots_fix ['.', '/'] (by intro r h; simp at h)
            (by intro r h; simp at h) (by simp)] at hseg
          simp [splitSlash] at hseg
          rcases hseg with rfl | rfl <;> simp [dd]
        · rw [if_neg htr]
          intro seg hseg
          rw [stripDots_fix ['.'] (by intro r h; simp at h)
            (by intro r h; simp at h) (by simp)] at hseg
          simp [splitSlash] at hseg
          simp [hseg, dd]
    · rw [hnorm, if_neg hcore]
      by_cases habs : isAbsolute p = true
      · -- absolute: output '/' :: core2, whose segments are all good
        rw [if_pos habs]
        rw [habs] at hcore ⊢
        set st := (splitSlash p).foldl (procSeg true) [] with hst
        have hGood : ∀ x ∈ st.reverse, GoodSeg x :=
          goodseg_reverse _
            (foldl_procSeg_abs (splitSlash p) [] (by simp)
              (splitSlash_slashfree p))
        have hrevne : st.reverse ≠ [] := by
          intro hrev
          rw [hrev] at hcore
          exact hcore rfl
        have hsf2 : ∀ x ∈ st.reverse, '/' ∉ x :=
          fun x hx => (hGood x hx).2.2.2
        have hstrip : ∀ c2 : List Char,
            stripDots ('/' :: c2) = '/' :: c2 := fun c2 =>
          stripDots_fix _ (by intro r h; simp at h) (by intro r h; simp at h)
            (by simp)
        by_cases htr : hasTrail p = true
        · rw [if_pos htr, hstrip]
          intro seg hseg
          have htr2 : joinSlash st.reverse ++ ['/']
              = joinSlash (st.reverse ++ [[]]) := joinSlash_trailing _ hrevne
          rw [htr2] at hseg
          have hsf3 : ∀ x ∈ st.reverse ++ [[]], '/' ∉ x := by
            intro x hx
            rcases List.mem_append.1 hx with hx2 | hx2
            · exact hsf2 x hx2
            · simp at hx2
              simp [hx2]
          have hsp2 : splitSlash (joinSlash (st.reverse ++ [[]]))
              = st.reverse ++ [[]] :=
            splitSlash_joinSlash _ (by simp) hsf3
          obtain ⟨s, ss, hx⟩ := splitSlash_exists (joinSlash (st.reverse ++ [[]]))
          rw [splitSlash_cons '/' _ s ss hx, if_pos rfl] at hseg
          rw [hsp2] at hx
          rw [← hx] at hseg
          rcases List.mem_cons.1 hseg with rfl | hmem
          · simp [dd]
          · rcases List.mem_append.1 hmem with hx2 | hx2
            · exact (hGood seg hx2).2.2.1
            · simp at hx2
              simp [hx2, dd]
        · rw [if_neg htr, hstrip]
          intro seg hseg
          have hsp2 : splitSlash (joinSlash st.reverse) = st.reverse :=
            splitSlash_joinSlash _ hrevne hsf2
          obtain ⟨s, ss, hx⟩ := splitSlash_exists (joinSlash st.reverse)
          rw [splitSlash_cons '/' _ s ss hx, if_pos rfl] at hseg
          rw [hsp2] at hx
          rw [← hx] at hseg
          rcases List.mem_cons.1 hseg with rfl | hmem
          · simp [dd]
          · exact (hGood seg hmem).2.2.1
      · -- relative: the stack is good names atop a ".." run
        rw [if_neg habs]
        have habs2 : isAbsolute p = false := by
          simpa using habs
        rw [habs2] at hcore ⊢
        obtain ⟨ns, k, hstack, hgood⟩ :=
          foldl_procSeg_rel (splitSlash p) [] 0 (by simp)
            (splitSlash_slashfree p)
        simp only [List.replicate, List.append_nil] at hstack
        rw [hstack] at hcore ⊢
        have hrev : (ns ++ List.replicate k dd).reverse
            = List.replicate k dd ++ ns.reverse := by
          rw [List.reverse_append, List.reverse_replicate]
        rw [hrev] at hcore ⊢
        have hgoodrev : ∀ x ∈ ns.reverse, GoodSeg x := goodseg_reverse ns hgood
        by_cases htr : hasTrail p = true
        · rw [if_pos htr]
          have hne : List.replicate k dd ++ ns.reverse ≠ [] := by
            intro hh
            rw [hh] at hcore
            exact hcore rfl
          rw [joinSlash_trailing _ hne, List.append_assoc]
          exact stripDots_no_dd k (ns.reverse ++ [[]])
            (by
              intro x hx
              rcases List.mem_append.1 hx with hx2 | hx2
              · exact (hgoodrev x hx2).2.2.2
              · simp at hx2
                simp [hx2])
            (by
              intro x hx
              rcases List.mem_append.1 hx with hx2 | hx2
              · exact (hgoodrev x hx2).2.2.1
              · simp at hx2
                simp [hx2, dd])
        · rw [if_neg htr]
          exact stripDots_no_dd k ns.reverse
            (fun x hx => (hgoodrev x hx).2.2.2)
            (fun x hx => (hgoodrev x hx).2.2.1)

end StaticFiles
namespace StaticFiles

/-- Segments that `procSeg` pushes (neither empty nor `"."`). -/
def keepSeg (x : List Char) : Bool := !(x == [] || x == ['.'])

/-- Absolute-mode resolution of `".."`-free segments never pops: it stacks
exactly the kept segments, in reverse, on top of the accumulator. -/
theorem foldl_procSeg_true_no_dd (segs : List (List Char)) :
    ∀ acc, (∀ x ∈ segs, x ≠ dd) →
      segs.foldl (procSeg true) acc
        = (segs.filter keepSeg).reverse ++ acc := by
  induction segs with
  | nil => intro acc _; simp
  | cons seg rest ih =>
    intro acc hnd
    have hseg : seg ≠ dd := hnd seg (by simp)
    have hrest : ∀ x ∈ rest, x ≠ dd := fun x hx => hnd x (by simp [hx])
    rw [List.foldl_cons]
    by_cases hk : seg = [] ∨ seg = ['.']
    · have hp : procSeg true acc seg = acc := by
        unfold procSeg
        rw [if_pos hk]
      have hf : (seg :: rest).filter keepSeg = rest.filter keepSeg := by
        rcases hk with rfl | rfl <;> simp [List.filter, keepSeg]
      rw [hp, hf, ih acc hrest]
    · have hp : procSeg true acc seg = seg :: acc := by
        unfold procSeg
        rw [if_neg hk, if_neg hseg]
      have hf : (seg :: rest).filter keepSeg
          = seg :: rest.filter keepSeg := by
        have : keepSeg seg = true := by
          simp only [keepSeg, Bool.not_eq_true']
          simp only [Bool.or_eq_false_iff]
          constructor
          · simp only [beq_eq_false_iff_ne, ne_eq]
            exact fun h => hk (Or.inl h)
          · simp only [beq_eq_false_iff_ne, ne_eq]
            exact fun h => hk (Or.inr h)
        simp [List.filter, this]
      rw [hp, hf, ih (seg :: acc) hrest]
      simp

/-- `strStarts` holds of any extension. -/
theorem strStarts_append (a x : List Char) : strStarts a (a ++ x) = true := by
  induction a with
  | nil => rfl
  | cons c a ih => simpa [strStarts] using ih

/-- A good-segment list, possibly with a final empty segment from a
trailing slash, passes `okSegs`. -/
theorem okSegs_of_good (l : List (List Char))
    (h : ∀ x ∈ l, x ≠ [] ∧ x ≠ ['.'] ∧ x ≠ dd) : okSegs l = true := by
  induction l with
  | nil => rfl
  | cons x l ih =>
    obtain ⟨h1, h2, h3⟩ := h x (by simp)
    cases l with
    | nil => simp [okSegs, h2, h3]
    | cons y t =>
      have := ih (fun z hz => h z (by simp [hz]))
      simp only [okSegs] at this ⊢
      simp [h1, h2, h3, this]

/-- `okSegs` also tolerates one final empty segment. -/
theorem okSegs_of_good_trail (l : List (List Char))
    (h : ∀ x ∈ l, x ≠ [] ∧ x ≠ ['.'] ∧ x ≠ dd) :
    okSegs (l ++ [[]]) = true := by
  induction l with
  | nil => rfl
  | cons x l ih =>
    obtain ⟨h1, h2, h3⟩ := h x (by simp)
    have := ih (fun z hz => h z (by simp [hz]))
    have hddne : ¬ dd = ([] : List Char) := by decide
    have hddne2 : ¬ dd = ['.'] := by decide
    cases l with
    | nil => simp [okSegs, h1, h2, h3, hddne, hddne2]
    | cons y t =>
      simp only [List.cons_append, okSegs] at this ⊢
      simp [h1, h2, h3, this]

end StaticFiles
namespace StaticFiles

/-- Unfolded form of `pathNormalize` on a nonempty path. -/
theorem pathNormalize_expand (p : List Char) (hp0 : p ≠ []) :
    pathNormalize p =
      (if joinSlash ((splitSlash p).foldl (procSeg (isAbsolute p)) []).reverse
          = [] then
        if isAbsolute p then ['/']
        else (if hasTrail p then ['.', '/'] else ['.'])
      else
        if isAbsolute p then
          '/' :: (if hasTrail p then
            joinSlash ((splitSlash p).foldl (procSeg (isAbsolute p)) []).reverse
              ++ ['/']
            else
            joinSlash ((splitSlash p).foldl (procSeg (isAbsolute p)) []).reverse)
        else
          (if hasTrail p then
            joinSlash ((splitSlash p).foldl (procSeg (isAbsolute p)) []).reverse
              ++ ['/']
            else
            joinSlash ((splitSlash p).foldl (procSeg (isAbsolute p)) []).reverse)) := by
  unfold pathNormalize
  rw [if_neg hp0]

/-- A path of the form root-slash-segments with acceptable segments lies
within the root. -/
theorem withinRoot_append (R : List Char)
    (hok : okSegs (splitSlash R) = true) :
    withinRoot PUBLIC_DIR (PUBLIC_DIR ++ '/' :: R) = true := by
  unfold withinRoot
  have hdrop : (PUBLIC_DIR ++ '/' :: R).drop PUBLIC_DIR.length = '/' :: R :=
    List.drop_left _ _
  rw [hdrop]
  simp [strStarts_append, hok]

/-- Joining `PUBLIC_DIR` with any `".."`-free suffix stays within
`PUBLIC_DIR`. -/
theorem pathJoin_within (sp : List Char) (hnd : NoDotDotSeg sp) :
    withinRoot PUBLIC_DIR (pathJoin PUBLIC_DIR sp) = true := by
  by_cases hsp : sp = []
  · subst hsp
    decide
  · have hjne : PUBLIC_DIR ++ '/' :: sp ≠ [] := by
      intro h
      rw [List.append_eq_nil] at h
      exact absurd h.1 (by decide)
    have hjoin : pathJoin PUBLIC_DIR sp
        = pathNormalize (PUBLIC_DIR ++ '/' :: sp) := by
      unfold pathJoin
      rw [if_neg (show ¬ PUBLIC_DIR = [] by decide), if_neg hsp,
        if_neg hjne]
    have hPUBcons : PUBLIC_DIR = '/' :: "srv/app/public".data := by decide
    have habs : isAbsolute (PUBLIC_DIR ++ '/' :: sp) = true := by
      rw [hPUBcons]
      rfl
    have hsegs : splitSlash (PUBLIC_DIR ++ '/' :: sp)
        = splitSlash PUBLIC_DIR ++ splitSlash sp := splitSlash_append _ _
    have hfold : (splitSlash PUBLIC_DIR ++ splitSlash sp).foldl (procSeg true) []
        = ((splitSlash sp).filter keepSeg).reverse
            ++ ["public".data, "app".data, "srv".data] := by
      rw [List.foldl_append]
      rw [show (splitSlash PUBLIC_DIR).foldl (procSeg true) []
          = [("public".data : List Char), "app".data, "srv".data] by decide]
      exact foldl_procSeg_true_no_dd (splitSlash sp) _ hnd
    have hG : ∀ x ∈ (splitSlash sp).filter keepSeg,
        x ≠ [] ∧ x ≠ ['.'] ∧ x ≠ dd ∧ '/' ∉ x := by
      intro x hx
      obtain ⟨hmem, hkeep⟩ := List.mem_filter.1 hx
      simp only [keepSeg, Bool.not_eq_true', Bool.or_eq_false_iff,
        beq_eq_false_iff_ne, ne_eq] at hkeep
      exact ⟨hkeep.1, hkeep.2, hnd x hmem, splitSlash_slashfree sp x hmem⟩
    rw [hjoin, pathNormalize_expand _ hjne, habs, hsegs, hfold]
    simp only [if_true]
    rw [List.reverse_append, List.reverse_reverse]
    cases hGr : (splitSlash sp).filter keepSeg with
    | nil =>
      by_cases htr : hasTrail (PUBLIC_DIR ++ '/' :: sp) = true
      · rw [htr]
        decide
      · rw [Bool.not_eq_true] at htr
        rw [htr]
        decide
    | cons g G2 =>
      rw [hGr] at hG
      have hjs : joinSlash (["public".data, "app".data,
            "srv".data].reverse ++ g :: G2)
          = "srv/app/public".data ++ '/' :: joinSlash (g :: G2) := by
        rw [joinSlash_append _ _ (by simp) (by simp)]
        rw [show joinSlash ["public".data, "app".data, "srv".data].reverse
            = ("srv/app/public".data : List Char) by decide]
      rw [hjs]
      have hcorene : ¬ ("srv/app/public".data
          ++ '/' :: joinSlash (g :: G2)) = [] := by
        simp
      rw [if_neg hcorene]
      have hsfG : ∀ x ∈ g :: G2, '/' ∉ x := fun x hx => (hG x hx).2.2.2
      have hokG : okSegs (g :: G2) = true :=
        okSegs_of_good _ (fun x hx =>
          ⟨(hG x hx).1, (hG x hx).2.1, (hG x hx).2.2.1⟩)
      by_cases htr : hasTrail (PUBLIC_DIR ++ '/' :: sp) = true
      · rw [htr]
        simp only [if_true]
        have hfp : '/' :: (("srv/app/public".data
              ++ '/' :: joinSlash (g :: G2)) ++ ['/'])
            = PUBLIC_DIR ++ '/' :: (joinSlash (g :: G2) ++ ['/']) := by
          rw [hPUBcons]
          simp
        rw [hfp]
        apply withinRoot_append
        rw [joinSlash_trailing _ (by simp),
          splitSlash_joinSlash _ (by simp)
            (by
              intro x hx
              rcases List.mem_append.1 hx with hx2 | hx2
              · exact hsfG x hx2
              · simp at hx2
                simp [hx2])]
        exact okSegs_of_good_trail _ (fun x hx =>
          ⟨(hG x hx).1, (hG x hx).2.1, (hG x hx).2.2.1⟩)
      · rw [Bool.not_eq_true] at htr
        rw [htr]
        simp only [Bool.false_eq_true, if_false]
        have hfp : '/' :: ("srv/app/public".data
              ++ '/' :: joinSlash (g :: G2))
            = PUBLIC_DIR ++ '/' :: joinSlash (g :: G2) := by
          rw [hPUBcons]
          simp
        rw [hfp]
        apply withinRoot_append
        rw [splitSlash_joinSlash _ (by simp) hsfG]
        exact hokG

end StaticFiles

/-- C9: path isolation.  For every decoded HTTP request path, the static
file handler either rejects the request (403) or resolves it to a file path
that lies within `PUBLIC_DIR`: the path served is the configured root
itself, or the root followed by a slash and segments none of which is
`".."` (or `"."`, or interior-empty) — so no request, in particular no
crafted `../../etc/passwd`, ever resolves to a file outside the public
root. -/
theorem c9_path_isolation :
    ∀ (p fp : List Char),
      StaticFiles.staticRoute p = StaticFiles.RouteResult.serve fp →
      StaticFiles.withinRoot StaticFiles.PUBLIC_DIR fp = true := by
  intro p fp h
  simp only [StaticFiles.staticRoute] at h
  split at h <;> (try split at h) <;>
    first
      | (injection h with h2
         subst h2
         exact StaticFiles.pathJoin_within _ (StaticFiles.safePath_no_dd _))
      | exact StaticFiles.RouteResult.noConfusion h

/-- Witness for C9: the crafted traversal path `/../../etc/passwd` resolves
to `/srv/app/public/etc/passwd`, inside the public root. -/
theorem c9_path_isolation_witness :
    StaticFiles.staticRoute ("/../../etc/passwd".data)
      = StaticFiles.RouteResult.serve ("/srv/app/public/etc/passwd".data) ∧
    StaticFiles.withinRoot StaticFiles.PUBLIC_DIR
      ("/srv/app/public/etc/passwd".data) = true :=
  ⟨by decide,
   c9_path_isolation ("/../../etc/passwd".data) _ (by decide)⟩
